import Mathlib

/-!
# catalog-importer: the `sync` command and the Backstage source

A shallow embedding of

* `SyncOptions.Run` (`cmd/catalog-importer/cmd/sync.go`): the reconciliation of
  catalog types (prune, create, lookup, schema sync) followed by the pipelines;
* `SourceBackstage.Load` and `getJWT` (`source/source_backstage.go`): the
  paginated fetch of Backstage entries.

Everything the Go code reaches through the network (the incident.io client, the
Backstage HTTP server, the clock) is an explicit oracle that is handed the
history of calls made so far, and every call that is issued is recorded in a
trace together with the reply it got.  Go errors are strings; `errors.Wrap(err,
msg)` is `msg ++ ": " ++ err`.
-/

namespace CatalogImporter

/-! ## Data model -/

/-- Go `map[string]string`, kept as an association list and read with
`List.lookup` (the two-valued index expression `m[k]`). -/
abbrev StringMap := List (String × String)

/-- `client.CatalogTypeAttributePayloadV2`: one declared attribute. -/
structure CatalogTypeAttributePayloadV2 where
  Id : Option String
  Name : String
  AttrType : String
  Array : Bool
  deriving DecidableEq, Repr

/-- `client.CatalogTypeV2`, with `Schema.Version` flattened into `SchemaVersion`. -/
structure CatalogTypeV2 where
  Id : String
  Name : String
  Description : String
  TypeName : String
  Annotations : StringMap
  SchemaVersion : Int
  deriving DecidableEq, Repr

/-- `output.Output`: one desired catalog type of the configuration. -/
structure Output where
  Name : String
  Description : String
  TypeName : String
  Attributes : List CatalogTypeAttributePayloadV2
  deriving DecidableEq, Repr

/-- `output.CatalogTypeModel`: the result of `output.MarshalType`. -/
structure CatalogTypeModel where
  Name : String
  Description : String
  TypeName : String
  Attributes : List CatalogTypeAttributePayloadV2
  deriving DecidableEq, Repr

/-- Modelled from the spec: `output.MarshalType` is not among the sources; the
spec says it "derives the declared type shape (name, description, type_name,
attribute schema)" of the output. -/
def MarshalType (o : Output) : CatalogTypeModel :=
  { Name := o.Name, Description := o.Description, TypeName := o.TypeName,
    Attributes := o.Attributes }

/-- `source.Source`, seen from `Run` only through `Load` and `Name`. -/
structure Source where
  Name : String
  deriving DecidableEq, Repr

/-- `source.SourceEntry` as `Run` sees it. -/
structure SourceEntry where
  Origin : String
  Content : String
  deriving DecidableEq, Repr

/-- `source.Entry`: a parsed record. -/
structure Entry where
  fields : List (String × String)
  deriving DecidableEq, Repr

/-- `output.CatalogEntryModel`: a desired entry. -/
structure EntryModel where
  ExternalID : String
  Name : String
  deriving DecidableEq, Repr

/-- `config.Pipeline`. -/
structure Pipeline where
  Sources : List Source
  Outputs : List Output
  deriving DecidableEq, Repr

/-- `config.Config`. -/
structure Config where
  SyncID : String
  Pipelines : List Pipeline
  deriving DecidableEq, Repr

/-- Modelled from the spec: `Config.Outputs` is not among the sources; the spec
has the configuration as an ordered collection of pipelines, each with a list
of outputs, and `Run` ranges over all of them in that order. -/
def Config.Outputs (cfg : Config) : List Output :=
  (cfg.Pipelines.map Pipeline.Outputs).flatten

/-- `SyncOptions`, the fields `Run` reads after the client is built. -/
structure SyncOptions where
  Prune : Bool
  deriving DecidableEq, Repr

/-- `client.CreateTypeRequestBody`. -/
structure CreateTypeRequestBody where
  Name : String
  Description : String
  TypeName : Option String
  Annotations : Option StringMap
  deriving DecidableEq, Repr

/-- `client.CatalogV2UpdateTypeJSONRequestBody`. -/
structure UpdateTypeRequestBody where
  Name : String
  Description : String
  TypeName : Option String
  Annotations : Option StringMap
  deriving DecidableEq, Repr

/-- `client.CatalogV2UpdateTypeSchemaJSONRequestBody`. -/
structure UpdateTypeSchemaRequestBody where
  Version : Int
  Attributes : List CatalogTypeAttributePayloadV2
  deriving DecidableEq, Repr

/-! ## Calls, replies and the trace -/

/-- The calls `Run` makes to the outside. -/
inductive Call where
  | ListTypes
  | DestroyType (id : String)
  | CreateType (body : CreateTypeRequestBody)
  | UpdateType (id : String) (body : UpdateTypeRequestBody)
  | UpdateTypeSchema (id : String) (body : UpdateTypeSchemaRequestBody)
  | SourceLoad (src : Source)
  | ReconcileEntries (catalogType : Option CatalogTypeV2) (models : List EntryModel)
  deriving DecidableEq, Repr

/-- What came back from a call. -/
inductive Reply where
  | failed (err : String)
  | done
  | catalogType (ct : CatalogTypeV2)
  | catalogTypes (cts : List CatalogTypeV2)
  | sourceEntries (es : List SourceEntry)
  deriving DecidableEq, Repr

/-- One issued call with its reply. -/
structure Event where
  call : Call
  reply : Reply
  deriving DecidableEq, Repr

abbrev Trace := List Event

/-- The outside world: each operation answers from the history of events so far. -/
structure World where
  listTypes : Trace → Except String (List CatalogTypeV2)
  destroyType : Trace → String → Except String Unit
  createType : Trace → CreateTypeRequestBody → Except String CatalogTypeV2
  updateType : Trace → String → UpdateTypeRequestBody → Except String CatalogTypeV2
  updateTypeSchema : Trace → String → UpdateTypeSchemaRequestBody → Except String Unit
  load : Trace → Source → Except String (List SourceEntry)
  reconcileEntries : Trace → Option CatalogTypeV2 → List EntryModel → Except String Unit
  now : Trace → String

/-- The pure helpers of the `source` and `output` packages that `Run` calls and
the build-time `Version` string. -/
structure Deps where
  Version : String
  parse : SourceEntry → Except String (List Entry)
  collect : Output → List Entry → Except String (List Entry)
  marshalEntries : Output → List Entry → Except String (List EntryModel)

/-- What `Run` returns (`none` is Go's `nil` error) and the calls it made. -/
structure RunResult where
  trace : Trace
  err : Option String
  deriving DecidableEq, Repr

/-! ## `sync.go` -/

def AnnotationSyncID : String := "incident.io/catalog-importer/sync-id"

def AnnotationLastSyncAt : String := "incident.io/catalog-importer/last-sync-at"

def AnnotationVersion : String := "incident.io/catalog-importer/version"

/-- `getAnnotations`; `now` is `time.Now().Format(time.RFC3339)`. -/
def getAnnotations (version now syncID : String) : StringMap :=
  [(AnnotationSyncID, syncID), (AnnotationLastSyncAt, now), (AnnotationVersion, version)]

/-- Lines 77-93: keep the remote types whose sync-id annotation is ours. -/
def existingManaged (syncID : String) : List CatalogTypeV2 → List CatalogTypeV2
  | [] => []
  | catalogType :: rest =>
    match catalogType.Annotations.lookup AnnotationSyncID with
    | none => existingManaged syncID rest
    | some id =>
      if id != syncID then existingManaged syncID rest
      else catalogType :: existingManaged syncID rest

/-- Lines 106-122: the managed types that match no configured output. -/
def toDestroy (outputs : List Output) : List CatalogTypeV2 → List CatalogTypeV2
  | [] => []
  | existingCatalogType :: rest =>
    if outputs.any (fun output => output.TypeName == existingCatalogType.TypeName) then
      toDestroy outputs rest
    else existingCatalogType :: toDestroy outputs rest

/-- Lines 127-134: destroy each in turn, returning on the first error. -/
def destroyLoop (w : World) : List CatalogTypeV2 → Trace → Trace × Option String
  | [], _ => ([], none)
  | catalogType :: rest, hist =>
    match w.destroyType hist catalogType.Id with
    | .error e =>
      ([⟨.DestroyType catalogType.Id, .failed e⟩], some ("removing catalog type: " ++ e))
    | .ok _ =>
      let r := destroyLoop w rest (hist ++ [⟨.DestroyType catalogType.Id, .done⟩])
      (⟨.DestroyType catalogType.Id, .done⟩ :: r.1, r.2)

/-- The body of a create request (lines 153-158). -/
def createBody (version now syncID : String) (model : CatalogTypeModel) :
    CreateTypeRequestBody :=
  { Name := model.Name, Description := model.Description,
    TypeName := some model.TypeName,
    Annotations := some (getAnnotations version now syncID) }

/-- Lines 141-166: create the outputs that match no type of the growing
`existingCatalogTypes`; returns the final `existingCatalogTypes`. -/
def createLoop (w : World) (d : Deps) (syncID : String) :
    List Output → List CatalogTypeV2 → Trace → Trace × Except String (List CatalogTypeV2)
  | [], existing, _ => ([], .ok existing)
  | outputType :: rest, existing, hist =>
    if existing.any (fun ct => (MarshalType outputType).TypeName == ct.TypeName) then
      createLoop w d syncID rest existing hist
    else
      match w.createType hist
          (createBody d.Version (w.now hist) syncID (MarshalType outputType)) with
      | .error e =>
        ([⟨.CreateType (createBody d.Version (w.now hist) syncID (MarshalType outputType)),
            .failed e⟩],
          .error ("creating catalog type: " ++ e))
      | .ok ct =>
        let r := createLoop w d syncID rest (existing ++ [ct])
          (hist ++ [⟨.CreateType
            (createBody d.Version (w.now hist) syncID (MarshalType outputType)),
            .catalogType ct⟩])
        (⟨.CreateType (createBody d.Version (w.now hist) syncID (MarshalType outputType)),
            .catalogType ct⟩ :: r.1, r.2)

/-- Go `m[k] = v` on a map kept as an association list. -/
def mapSet (m : List (String × CatalogTypeV2)) (k : String) (v : CatalogTypeV2) :
    List (String × CatalogTypeV2) :=
  (k, v) :: m.filter (fun kv => kv.1 != k)

/-- Lines 169-183: the lookup of catalog type by output type name. -/
def buildLookup (existing : List CatalogTypeV2) :
    List Output → List (String × CatalogTypeV2) → Except String (List (String × CatalogTypeV2))
  | [], m => .ok m
  | outputType :: rest, m =>
    match existing.find? (fun ct => outputType.TypeName == ct.TypeName) with
    | none =>
      .error ("could not find catalog type for model '" ++ outputType.TypeName
        ++ "', this is a bug in the importer")
    | some catalogType => buildLookup existing rest (mapSet m outputType.TypeName catalogType)

/-- The body of an update request (lines 192-196). -/
def updateBody (model : CatalogTypeModel) : UpdateTypeRequestBody :=
  { Name := model.Name, Description := model.Description,
    TypeName := some model.TypeName, Annotations := none }

/-- Lines 187-209: update each type, then its schema. A missing map entry is a
nil pointer in Go and the dereference of `catalogType.Id` stops the program. -/
def syncLoop (w : World) (lookup : List (String × CatalogTypeV2)) :
    List Output → Trace → Trace × Option String
  | [], _ => ([], none)
  | outputType :: rest, hist =>
    match lookup.lookup outputType.TypeName with
    | none => ([], some "panic: nil pointer dereference")
    | some catalogType =>
      match w.updateType hist catalogType.Id (updateBody (MarshalType outputType)) with
      | .error e =>
        ([⟨.UpdateType catalogType.Id (updateBody (MarshalType outputType)), .failed e⟩],
          some ("updating catalog type: " ++ e))
      | .ok res =>
        match w.updateTypeSchema
            (hist ++ [⟨.UpdateType catalogType.Id (updateBody (MarshalType outputType)),
              .catalogType res⟩])
            catalogType.Id ⟨res.SchemaVersion, (MarshalType outputType).Attributes⟩ with
        | .error e =>
          ([⟨.UpdateType catalogType.Id (updateBody (MarshalType outputType)),
              .catalogType res⟩,
            ⟨.UpdateTypeSchema catalogType.Id
              ⟨res.SchemaVersion, (MarshalType outputType).Attributes⟩, .failed e⟩],
            some ("updating catalog type schema: " ++ e))
        | .ok _ =>
          let r := syncLoop w lookup rest
            (hist ++ [⟨.UpdateType catalogType.Id (updateBody (MarshalType outputType)),
                .catalogType res⟩,
              ⟨.UpdateTypeSchema catalogType.Id
                ⟨res.SchemaVersion, (MarshalType outputType).Attributes⟩, .done⟩])
          (⟨.UpdateType catalogType.Id (updateBody (MarshalType outputType)),
              .catalogType res⟩ ::
            ⟨.UpdateTypeSchema catalogType.Id
              ⟨res.SchemaVersion, (MarshalType outputType).Attributes⟩, .done⟩ :: r.1, r.2)

/-- Lines 226-233: parse every source entry, appending to `sourcedEntries`. -/
def parseAll (d : Deps) : List SourceEntry → List Entry → Except String (List Entry)
  | [], sourcedEntries => .ok sourcedEntries
  | sourceEntry :: rest, sourcedEntries =>
    match d.parse sourceEntry with
    | .error e => .error ("parsing source entry: " ++ sourceEntry.Origin ++ ": " ++ e)
    | .ok parsedEntries => parseAll d rest (sourcedEntries ++ parsedEntries)

/-- Lines 220-236: load and parse each source of a pipeline; the `%v` rendering
of the source in the error text is its name. -/
def loadSources (w : World) (d : Deps) :
    List Source → List Entry → Trace → Trace × Except String (List Entry)
  | [], sourcedEntries, _ => ([], .ok sourcedEntries)
  | source :: rest, sourcedEntries, hist =>
    match w.load hist source with
    | .error e =>
      ([⟨.SourceLoad source, .failed e⟩],
        .error ("loading entries from source " ++ source.Name ++ ": " ++ e))
    | .ok sourceEntries =>
      match parseAll d sourceEntries sourcedEntries with
      | .error e => ([⟨.SourceLoad source, .sourceEntries sourceEntries⟩], .error e)
      | .ok sourcedEntries2 =>
        let r := loadSources w d rest sourcedEntries2
          (hist ++ [⟨.SourceLoad source, .sourceEntries sourceEntries⟩])
        (⟨.SourceLoad source, .sourceEntries sourceEntries⟩ :: r.1, r.2)

/-- The prefix of the error of lines 246 and 253. -/
def outputErr (idx : Nat) (outputType : Output) : String :=
  "outputs." ++ toString idx ++ " (type_name='" ++ outputType.TypeName ++ "'): "

/-- Lines 240-314: collect, marshal and reconcile the entries of each output. -/
def syncOutputs (w : World) (d : Deps) (lookup : List (String × CatalogTypeV2))
    (sourcedEntries : List Entry) : List Output → Nat → Trace → Trace × Option String
  | [], _, _ => ([], none)
  | outputType :: rest, idx, hist =>
    match d.collect outputType sourcedEntries with
    | .error e => ([], some (outputErr idx outputType ++ e))
    | .ok entries =>
      match d.marshalEntries outputType entries with
      | .error e => ([], some (outputErr idx outputType ++ e))
      | .ok entryModels =>
        match w.reconcileEntries hist (lookup.lookup outputType.TypeName) entryModels with
        | .error e =>
          ([⟨.ReconcileEntries (lookup.lookup outputType.TypeName) entryModels, .failed e⟩],
            some ("outputs (type_name = '" ++ outputType.TypeName
              ++ "'): reconciling catalog entries: " ++ e))
        | .ok _ =>
          let r := syncOutputs w d lookup sourcedEntries rest (idx + 1)
            (hist ++ [⟨.ReconcileEntries (lookup.lookup outputType.TypeName) entryModels,
              .done⟩])
          (⟨.ReconcileEntries (lookup.lookup outputType.TypeName) entryModels, .done⟩ :: r.1,
            r.2)

/-- Lines 211-315: the pipelines, one after the other. -/
def runPipelines (w : World) (d : Deps) (lookup : List (String × CatalogTypeV2)) :
    List Pipeline → Trace → Trace × Option String
  | [], _ => ([], none)
  | pipeline :: rest, hist =>
    match loadSources w d pipeline.Sources [] hist with
    | (t1, .error e) => (t1, some e)
    | (t1, .ok sourcedEntries) =>
      match syncOutputs w d lookup sourcedEntries pipeline.Outputs 0 (hist ++ t1) with
      | (t2, some e) => (t1 ++ t2, some e)
      | (t2, none) =>
        let r := runPipelines w d lookup rest (hist ++ t1 ++ t2)
        (t1 ++ t2 ++ r.1, r.2)

/-- Lines 103-136: the prune phase. -/
def prunePhase (w : World) (opt : SyncOptions) (cfg : Config)
    (existing : List CatalogTypeV2) (hist : Trace) : Trace × Option String :=
  if opt.Prune then destroyLoop w (toDestroy cfg.Outputs existing) hist else ([], none)

/-- Lines 138-318: everything after the prune phase. -/
def afterPrune (w : World) (d : Deps) (cfg : Config) (existing : List CatalogTypeV2)
    (hist : Trace) : Trace × Option String :=
  match createLoop w d cfg.SyncID cfg.Outputs existing hist with
  | (t2, .error e) => (t2, some e)
  | (t2, .ok existing2) =>
    match buildLookup existing2 cfg.Outputs [] with
    | .error e => (t2, some e)
    | .ok lookup =>
      match syncLoop w lookup cfg.Outputs (hist ++ t2) with
      | (t3, some e) => (t2 ++ t3, some e)
      | (t3, none) =>
        let r := runPipelines w d lookup cfg.Pipelines (hist ++ t2 ++ t3)
        (t2 ++ t3 ++ r.1, r.2)

/-- `SyncOptions.Run` from line 71 on: the configuration is loaded and the
client is built. -/
def Run (w : World) (d : Deps) (opt : SyncOptions) (cfg : Config) : RunResult :=
  match w.listTypes [] with
  | .error e => ⟨[⟨.ListTypes, .failed e⟩], some ("listing catalog types: " ++ e)⟩
  | .ok remote =>
    match prunePhase w opt cfg (existingManaged cfg.SyncID remote)
        [⟨.ListTypes, .catalogTypes remote⟩] with
    | (t1, some e) => ⟨⟨.ListTypes, .catalogTypes remote⟩ :: t1, some e⟩
    | (t1, none) =>
      let r := afterPrune w d cfg (existingManaged cfg.SyncID remote)
        (⟨.ListTypes, .catalogTypes remote⟩ :: t1)
      ⟨⟨.ListTypes, .catalogTypes remote⟩ :: (t1 ++ r.1), r.2⟩

/-! ## Reading a trace -/

/-- The ids passed to `DestroyType`, in order. -/
def destroyedIds (t : Trace) : List String :=
  t.filterMap (fun e => match e.call with
    | .DestroyType id => some id
    | _ => none)

/-- The bodies passed to `CreateType`, in order. -/
def createdBodies (t : Trace) : List CreateTypeRequestBody :=
  t.filterMap (fun e => match e.call with
    | .CreateType body => some body
    | _ => none)

/-- An event whose call is one of the four type-reconciliation calls. -/
def Event.isTypeCall (e : Event) : Bool :=
  match e.call with
  | .DestroyType _ => true
  | .CreateType _ => true
  | .UpdateType _ _ => true
  | .UpdateTypeSchema _ _ => true
  | _ => false

/-- An event whose call is a call of the catalog API client (`cl`). -/
def Event.isAPICall (e : Event) : Bool :=
  match e.call with
  | .SourceLoad _ => false
  | .ReconcileEntries _ _ => false
  | _ => true

/-- An event of the pipelines phase: a source load or an entry reconciliation. -/
def Event.isPipelineCall (e : Event) : Bool :=
  match e.call with
  | .SourceLoad _ => true
  | .ReconcileEntries _ _ => true
  | _ => false

/-- The call came back with an error. -/
def Event.failed (e : Event) : Bool :=
  match e.reply with
  | .failed _ => true
  | _ => false

/-- The call is `DestroyType`. -/
def Event.isDestroy (e : Event) : Bool :=
  match e.call with
  | .DestroyType _ => true
  | _ => false

/-- The call is `CreateType`. -/
def Event.isCreate (e : Event) : Bool :=
  match e.call with
  | .CreateType _ => true
  | _ => false

/-- The call is `UpdateType` or `UpdateTypeSchema`. -/
def Event.isUpdate (e : Event) : Bool :=
  match e.call with
  | .UpdateType _ _ => true
  | .UpdateTypeSchema _ _ => true
  | _ => false

/-- The error of a Go `(value, error)` pair. -/
def errOf {α : Type} : Except String α → Option String
  | .error e => some e
  | .ok _ => none

/-- No event of the trace came back with an error. -/
def NoFail (t : Trace) : Prop := ∀ e ∈ t, e.failed = false

/-- A phase stops at its first failed call: only the last event can have
failed, and a phase that reports no error has no failed call at all. -/
def StopsAtFailure (t : Trace) (err : Option String) : Prop :=
  (err = none → NoFail t) ∧ NoFail t.dropLast

/-- The managed and unconfigured remote types in the words of the
specification: the sync-id annotation is present and equal to the configured
sync id, and no configured output has the type name. -/
def managedUnconfigured (cfg : Config) (remote : List CatalogTypeV2) : List CatalogTypeV2 :=
  remote.filter (fun ct =>
    ct.Annotations.lookup AnnotationSyncID == some cfg.SyncID
      && !cfg.Outputs.any (fun o => o.TypeName == ct.TypeName))

/-- A successful `CreateType` reply is a catalog type whose `TypeName` is the
requested `type_name`; every other event passes. -/
def Event.echoesTypeName (e : Event) : Bool :=
  match e.call, e.reply with
  | .CreateType body, .catalogType ct => body.TypeName == some ct.TypeName
  | _, _ => true

/-- Every successful `CreateType` reply of the trace is a catalog type whose
`TypeName` is the requested `type_name`. -/
def EchoesTypeName (t : Trace) : Prop := ∀ e ∈ t, e.echoesTypeName = true

/-- No call of the catalog API client in the trace failed. -/
def NoAPIFailure (t : Trace) : Prop := ∀ e ∈ t, e.isAPICall = true → e.failed = false

/-- A create request for output `o`: its name, description and type name, and
annotations whose sync-id entry is `syncID`. -/
def CarriesOutput (syncID : String) (o : Output) (b : CreateTypeRequestBody) : Prop :=
  b.Name = o.Name ∧ b.Description = o.Description ∧ b.TypeName = some o.TypeName ∧
    ∃ ann, b.Annotations = some ann ∧ ann.lookup AnnotationSyncID = some syncID

/-- The outputs in order, keeping for each type name its first occurrence only. -/
def firstPerTypeName : List Output → List Output
  | [] => []
  | o :: rest => o :: (firstPerTypeName rest).filter (fun p => p.TypeName != o.TypeName)

/-- The configured outputs whose type name matches no managed remote type. -/
def unmanagedOutputs (cfg : Config) (remote : List CatalogTypeV2) : List Output :=
  cfg.Outputs.filter (fun o =>
    !(existingManaged cfg.SyncID remote).any (fun ct => o.TypeName == ct.TypeName))

/-- The outputs whose type name is neither in `names` nor the type name of an
earlier output of the list. -/
def newOutputs : List String → List Output → List Output
  | _, [] => []
  | names, o :: rest =>
    if names.contains o.TypeName then newOutputs names rest
    else o :: newOutputs (names ++ [o.TypeName]) rest

/-- The catalog types returned by the successful `CreateType` calls, in order. -/
def createdTypes (t : Trace) : List CatalogTypeV2 :=
  t.filterMap (fun e => match e.call, e.reply with
    | .CreateType _, .catalogType ct => some ct
    | _, _ => none)

/-- The two schema-sync calls of output `o`: an `UpdateType` on the id of a
known catalog type with the output's type name, carrying the output's name,
description and type name, answered by `res`; then an `UpdateTypeSchema` on
the same id with the schema version of `res` and the output's attributes. -/
def SchemaSynced (known : List CatalogTypeV2) (o : Output) (e1 e2 : Event) : Prop :=
  ∃ ct res, ct ∈ known ∧ ct.TypeName = o.TypeName ∧
    e1 = ⟨.UpdateType ct.Id ⟨o.Name, o.Description, some o.TypeName, none⟩,
      .catalogType res⟩ ∧
    e2 = ⟨.UpdateTypeSchema ct.Id ⟨res.SchemaVersion, o.Attributes⟩, .done⟩

/-- The trace is exactly the schema-sync pair of each output, in order. -/
def SyncPairs (known : List CatalogTypeV2) : List Output → Trace → Prop
  | [], t => t = []
  | o :: os, e1 :: e2 :: t => SchemaSynced known o e1 e2 ∧ SyncPairs known os t
  | _ :: _, _ => False

/-! ## Concrete runs -/

/-- A remote catalog type named `tn` with id `id` and annotations `ann`. -/
def remoteType (id tn : String) (ann : StringMap) : CatalogTypeV2 :=
  { Id := id, Name := tn, Description := "", TypeName := tn, Annotations := ann,
    SchemaVersion := 1 }

/-- An output named `tn` with one attribute. -/
def outputOf (tn : String) : Output :=
  { Name := tn, Description := "the " ++ tn, TypeName := tn,
    Attributes := [⟨some "owner", "Owner", "String", false⟩] }

/-- Scenario S6 with one more stale managed type: `T1`, `T2` and `T4` carry our
sync id, `T3` carries none and `T5` carries another one. -/
def s6Remote : List CatalogTypeV2 :=
  [remoteType "t1" "T1" [(AnnotationSyncID, "sync")],
   remoteType "t2" "T2" [(AnnotationSyncID, "sync")],
   remoteType "t3" "T3" [],
   remoteType "t4" "T4" [(AnnotationSyncID, "sync")],
   remoteType "t5" "T5" [(AnnotationSyncID, "other")]]

/-- One pipeline with one source whose only output is `T1`. -/
def s6Config : Config :=
  { SyncID := "sync", Pipelines := [⟨[⟨"src"⟩], [outputOf "T1"]⟩] }

/-- Two outputs, `A` then `B`, in one pipeline. -/
def abConfig : Config :=
  { SyncID := "sync", Pipelines := [⟨[⟨"src"⟩], [outputOf "A", outputOf "B"]⟩] }

/-- Helpers that accept everything and yield nothing. -/
def plainDeps : Deps :=
  { Version := "v1", parse := fun _ => .ok [], collect := fun _ es => .ok es,
    marshalEntries := fun _ _ => .ok [] }

/-- A server on which every call succeeds: it lists `remote`, and a create
returns a type with the requested name and type name. -/
def okWorld (remote : List CatalogTypeV2) : World :=
  { listTypes := fun _ => .ok remote
    destroyType := fun _ _ => .ok ()
    createType := fun _ body =>
      .ok { Id := "new-" ++ body.TypeName.getD "", Name := body.Name,
            Description := body.Description, TypeName := body.TypeName.getD "",
            Annotations := body.Annotations.getD [], SchemaVersion := 1 }
    updateType := fun _ id body =>
      .ok { Id := id, Name := body.Name, Description := body.Description,
            TypeName := body.TypeName.getD "", Annotations := [], SchemaVersion := 7 }
    updateTypeSchema := fun _ _ _ => .ok ()
    load := fun _ _ => .ok []
    reconcileEntries := fun _ _ _ => .ok ()
    now := fun _ => "2024-01-01T00:00:00Z" }

/-- The output `A` declared twice. -/
def aaConfig : Config :=
  { SyncID := "sync", Pipelines := [⟨[⟨"src"⟩], [outputOf "A", outputOf "A"]⟩] }

/-- As `okWorld`, but a created type comes back under the type name `X`. -/
def renamingWorld (remote : List CatalogTypeV2) : World :=
  { okWorld remote with
    createType := fun _ body =>
      .ok { Id := "new-" ++ body.TypeName.getD "", Name := body.Name,
            Description := body.Description, TypeName := "X",
            Annotations := body.Annotations.getD [], SchemaVersion := 1 } }

/-- As `okWorld`, but `UpdateType` fails for the type name `A` (and only for it). -/
def failingUpdateWorld (remote : List CatalogTypeV2) : World :=
  { okWorld remote with
    updateType := fun _ id body =>
      if body.TypeName == some "A" then .error "422 Unprocessable Entity"
      else .ok { Id := id, Name := body.Name, Description := body.Description,
                 TypeName := body.TypeName.getD "", Annotations := [], SchemaVersion := 7 } }

/-- As `okWorld`, but every `DestroyType` call fails. -/
def failingDestroyWorld (remote : List CatalogTypeV2) : World :=
  { okWorld remote with destroyType := fun _ _ => .error "503 Service Unavailable" }

/-! ## `source_backstage.go` -/

/-- `SourceBackstage`; `SignJWT` is a `*bool`, `none` being the nil pointer. -/
structure SourceBackstage where
  Endpoint : String
  Token : String
  SignJWT : Option Bool
  Filters : String
  Limit : Int
  Offset : Int
  deriving DecidableEq, Repr

/-- `net/url.Values`: the values of each query key. -/
abbrev Values := List (String × List String)

/-- `Values.Set`: replace the values of `key` by the single `value`. -/
def Values.Set (v : Values) (key value : String) : Values :=
  (key, [value]) :: v.filter (fun kv => kv.1 != key)

/-- `Values.Get`: the first value of `key`, or the empty string. -/
def Values.Get (v : Values) (key : String) : String :=
  match v.lookup key with
  | some (x :: _) => x
  | _ => ""

/-- A parsed `net/url.URL`, its `RawQuery` held as the `Values` that
`URL.Query()` reads from it and `Values.Encode()` writes back. -/
structure ParsedURL where
  Scheme : String
  Host : String
  Path : String
  Query : Values
  deriving DecidableEq, Repr

/-- The GET request `Load` sends: its URL and its `Authorization` header. -/
structure Request where
  URL : ParsedURL
  Authorization : Option String
  deriving DecidableEq, Repr

/-- The body of a response as `json.Decoder` reads it into `[]json.RawMessage`:
a decoding error, or the raw text of each element. -/
inductive Body where
  | malformed (err : String)
  | page (items : List String)
  deriving DecidableEq, Repr

/-- An HTTP response: `StatusCode`, `Status` and the body. -/
structure Response where
  StatusCode : Int
  Status : String
  Body : Body
  deriving DecidableEq, Repr

/-- The Backstage server behind `client.Do`: it answers the last request of the
list, having seen the ones before; an error is a transport failure. -/
abbrev Server := List Request → Except String Response

/-- A value of `jwt.MapClaims`. -/
inductive ClaimValue where
  | str (s : String)
  | num (n : Int)
  deriving DecidableEq, Repr

/-- The library functions `Load` and `getJWT` call, and the clock: `url.Parse`,
`http.NewRequestWithContext` on the rendered URL, `base64.StdEncoding.DecodeString`,
`SignedString` of an HS256 token with the given claims, `time.Now().Unix()`. -/
structure Lib where
  parseURL : String → Except String ParsedURL
  newRequest : ParsedURL → Except String Unit
  base64Decode : String → Except String (List Nat)
  signHS256 : List (String × ClaimValue) → List Nat → Except String String
  now : Int

/-- How a `Load` call ended: it returned `(entries, err)` (`none` is `nil`), or
it was still looping when the fuel ran out. -/
inductive Outcome where
  | returned (entries : Option (List SourceEntry)) (err : Option String)
  | running
  deriving DecidableEq, Repr

/-- The requests a `Load` call sent, in order, and how it ended. -/
structure LoadRun where
  requests : List Request
  outcome : Outcome
  deriving DecidableEq, Repr

/-- Go `int` arithmetic on a 64-bit target. -/
def wrapInt64 (x : Int) : Int := (x + 2 ^ 63) % 2 ^ 64 - 2 ^ 63

/-- The method `SourceBackstage.String()`. -/
def SourceBackstage.OriginString (s : SourceBackstage) : String :=
  "backstage (endpoint=" ++ s.Endpoint ++ ")"

/-- The claims `getJWT` puts in the token. -/
def jwtClaims (lib : Lib) : List (String × ClaimValue) :=
  [("sub", .str "backstage-server"), ("exp", .num (lib.now + 3600))]

/-- `SourceBackstage.getJWT`. -/
def SourceBackstage.getJWT (lib : Lib) (s : SourceBackstage) : Except String String :=
  match lib.base64Decode s.Token with
  | .error e => .error ("supplied backstage token must be a base64 string: " ++ e)
  | .ok secret => lib.signHS256 (jwtClaims lib) secret

/-- Lines 43-57 of `Load`: the token that goes after `Bearer`. -/
def SourceBackstage.bearerToken (lib : Lib) (s : SourceBackstage) : Except String String :=
  if s.Token != "" then
    if s.SignJWT == none || s.SignJWT == some true then s.getJWT lib
    else .ok s.Token
  else .ok ""

/-- Lines 68-78 of `Load`: the query of the request at the current offset. -/
def SourceBackstage.query (s : SourceBackstage) (offset : Int) (query : Values) : Values :=
  let q1 := if s.Filters != "" then Values.Set query "filter" s.Filters else query
  let q2 := if s.Limit > 0 then Values.Set q1 "limit" (toString s.Limit) else q1
  if offset > 0 then Values.Set q2 "offset" (toString offset) else q2

/-- Lines 84-86 of `Load`: the `Authorization` header. -/
def authorization (token : String) : Option String :=
  if token != "" then some ("Bearer " ++ token) else none

/-- Lines 62-113 of `Load`: the `for` loop, one iteration per unit of fuel.
`offset` is `s.Offset` of the receiver copy, `sent` the requests so far. -/
def SourceBackstage.loop (lib : Lib) (server : Server) (s : SourceBackstage) (token : String) :
    Nat → Int → List Request → List SourceEntry → LoadRun
  | 0, _, sent, _ => ⟨sent, .running⟩
  | fuel + 1, offset, sent, entries =>
    match lib.parseURL s.Endpoint with
    | .error e => ⟨sent, .returned none (some ("parsing Backstage endpoint URL: " ++ e))⟩
    | .ok reqURL =>
      match lib.newRequest { reqURL with Query := s.query offset reqURL.Query } with
      | .error e => ⟨sent, .returned none (some ("building Backstage URL: " ++ e))⟩
      | .ok _ =>
        match server (sent ++ [⟨{ reqURL with Query := s.query offset reqURL.Query },
            authorization token⟩]) with
        | .error e =>
          ⟨sent ++ [⟨{ reqURL with Query := s.query offset reqURL.Query },
              authorization token⟩],
            .returned none (some ("fetching Backstage entries: " ++ e))⟩
        | .ok resp =>
          if resp.StatusCode != 200 then
            ⟨sent ++ [⟨{ reqURL with Query := s.query offset reqURL.Query },
                authorization token⟩],
              .returned none (some ("fetching Backstage entries: "
                ++ ("received error from Backstage: " ++ resp.Status)))⟩
          else
            match resp.Body with
            | .malformed e =>
              ⟨sent ++ [⟨{ reqURL with Query := s.query offset reqURL.Query },
                  authorization token⟩],
                .returned none (some ("parsing Backstage entries: " ++ e))⟩
            | .page page =>
              if page.length == 0 then
                ⟨sent ++ [⟨{ reqURL with Query := s.query offset reqURL.Query },
                    authorization token⟩],
                  .returned (some entries) none⟩
              else
                SourceBackstage.loop lib server s token fuel
                  (wrapInt64 (offset + page.length))
                  (sent ++ [⟨{ reqURL with Query := s.query offset reqURL.Query },
                    authorization token⟩])
                  (entries ++ page.map (fun content => ⟨s.OriginString, content⟩))

/-- `SourceBackstage.Load`, run for at most `fuel` iterations of its loop. -/
def SourceBackstage.Load (lib : Lib) (server : Server) (s : SourceBackstage) (fuel : Nat) :
    LoadRun :=
  match s.bearerToken lib with
  | .error e => ⟨[], .returned none (some e)⟩
  | .ok token => s.loop lib server token fuel s.Offset [] []

/-! ## A concrete Backstage setting -/

/-- The UTF-8 bytes of a character: a Go string is its sequence of bytes, and
the offsets in the decoder's errors count bytes. -/
def utf8Bytes (c : Char) : List Nat :=
  if c.toNat < 128 then [c.toNat]
  else if c.toNat < 2048 then [192 + c.toNat / 64, 128 + c.toNat % 64]
  else if c.toNat < 65536 then
    [224 + c.toNat / 4096, 128 + c.toNat / 64 % 64, 128 + c.toNat % 64]
  else
    [240 + c.toNat / 262144, 128 + c.toNat / 4096 % 64, 128 + c.toNat / 64 % 64,
      128 + c.toNat % 64]

/-- The `decodeMap` of `base64.StdEncoding`: the value of a byte of the
standard alphabet (`A`-`Z`, `a`-`z`, `0`-`9`, `+`, `/`). -/
def base64Value (b : Nat) : Option Nat :=
  if 65 ≤ b ∧ b ≤ 90 then some (b - 65)
  else if 97 ≤ b ∧ b ≤ 122 then some (b - 97 + 26)
  else if 48 ≤ b ∧ b ≤ 57 then some (b - 48 + 52)
  else if b = 43 then some 62
  else if b = 47 then some 63
  else none

/-- The text of `base64.CorruptInputError(n)`. -/
def corruptInputError (n : Nat) : String :=
  "illegal base64 data at input byte " ++ toString n

/-- A line feed or a carriage return, which the decoder skips. -/
def isLineBreak (b : Nat) : Bool := b == 10 || b == 13

/-- The bytes of a quantum of two, three or four 6-bit values: one byte fewer
than there are values (the decoder is not strict about the unused bits). -/
def quantumBytes (dbuf : List Nat) : List Nat :=
  [((dbuf ++ [0, 0, 0, 0]).take 4).foldl (fun acc v => acc * 64 + v) 0 / 65536 % 256,
   ((dbuf ++ [0, 0, 0, 0]).take 4).foldl (fun acc v => acc * 64 + v) 0 / 256 % 256,
   ((dbuf ++ [0, 0, 0, 0]).take 4).foldl (fun acc v => acc * 64 + v) 0 % 256].take
    (dbuf.length - 1)

/-- Go's `Encoding.Decode` with `decodeQuantum` for `base64.StdEncoding`
(padding `=`, not strict): `si` is the index of the next byte, `dbuf` the
values of the quantum read so far, `total` the length of the input. Of a
failed decoding only the error is kept. -/
def decodeFrom (total : Nat) : List Nat → Nat → List Nat → Except String (List Nat)
  | [], si, dbuf =>
    if dbuf.length = 0 then .ok [] else .error (corruptInputError (si - dbuf.length))
  | b :: rest, si, dbuf =>
    match base64Value b with
    | some v =>
      if dbuf.length = 3 then
        match decodeFrom total rest (si + 1) [] with
        | .error e => .error e
        | .ok bytes => .ok (quantumBytes (dbuf ++ [v]) ++ bytes)
      else decodeFrom total rest (si + 1) (dbuf ++ [v])
    | none =>
      if isLineBreak b then decodeFrom total rest (si + 1) dbuf
      else if b != 61 then .error (corruptInputError si)
      else if dbuf.length < 2 then .error (corruptInputError si)
      else if dbuf.length = 2 then
        match rest.dropWhile isLineBreak with
        | [] => .error (corruptInputError total)
        | b2 :: rest2 =>
          if b2 != 61 then
            .error (corruptInputError (si + 1 + (rest.takeWhile isLineBreak).length - 1))
          else if (rest2.dropWhile isLineBreak).isEmpty then .ok (quantumBytes dbuf)
          else
            .error (corruptInputError (si + 1 + (rest.takeWhile isLineBreak).length + 1
              + (rest2.takeWhile isLineBreak).length))
      else if (rest.dropWhile isLineBreak).isEmpty then .ok (quantumBytes dbuf)
      else .error (corruptInputError (si + 1 + (rest.takeWhile isLineBreak).length))

/-- `base64.StdEncoding.DecodeString` on the bytes of the string. -/
def stdBase64Decode (s : String) : Except String (List Nat) :=
  decodeFrom (s.toList.map utf8Bytes).flatten.length (s.toList.map utf8Bytes).flatten 0 []

/-- The endpoint of the test server. -/
def testEndpoint : String := "http://127.0.0.1:7007/api/catalog/entities/by-query"

/-- A library for concrete runs: real base64 decoding, a URL parser that knows
the test endpoint, and a signer that only marks what it was given. -/
def testLib : Lib :=
  { parseURL := fun ep =>
      if ep == testEndpoint then
        .ok ⟨"http", "127.0.0.1:7007", "/api/catalog/entities/by-query", []⟩
      else .error "parse error"
    newRequest := fun _ => .ok ()
    base64Decode := stdBase64Decode
    signHS256 := fun claims secret =>
      .ok ("jwt." ++ toString claims.length ++ "." ++ toString secret.length)
    now := 1700000000 }

/-- The source of `TestSourceBackstage_Load`. -/
def testSource : SourceBackstage :=
  { Endpoint := testEndpoint, Token := "test-token", SignJWT := none,
    Filters := "kind=Component", Limit := 10, Offset := 0 }

/-- The two components the test server writes. -/
def testPage : List String :=
  ["\x7b\"metadata\": \x7b\"name\": \"component1\"\x7d\x7d",
   "\x7b\"metadata\": \x7b\"name\": \"component2\"\x7d\x7d"]

/-- The handler of `TestSourceBackstage_Load`: status 200 and the same two
components for every request. -/
def testServer : Server := fun _ => .ok ⟨200, "200 OK", .page testPage⟩

/-- A server that answers the i-th request with status 200 and the i-th page
of the list, and fails at the transport level once the list is used up. -/
def scripted (pages : List (List String)) : Server := fun sent =>
  match pages.get? (sent.length - 1) with
  | some page => .ok ⟨200, "200 OK", .page page⟩
  | none => .error "connection refused"

/-- The test source with `sign_jwt: false`, so that the raw token is the bearer. -/
def unsignedTestSource : SourceBackstage := { testSource with SignJWT := some false }

/-- The test source with a token that is valid base64 (of `test`). -/
def signedTestSource : SourceBackstage := { testSource with Token := "dGVzdA==" }

/-- A server that serves one page with a single item and then answers 503. -/
def failingSecondServer : Server := fun sent =>
  if sent.length == 1 then .ok ⟨200, "200 OK", .page ["A"]⟩
  else .ok ⟨503, "503 Service Unavailable", .page []⟩

/-- The pages are served in order with status 200: the i-th request, whatever
it is, is answered with the i-th page. -/
def Serves (server : Server) (pages : List (List String)) : Prop :=
  ∀ (sent : List Request) (r : Request) (page : List String),
    pages.get? sent.length = some page →
    ∃ status, server (sent ++ [r]) = .ok ⟨200, status, .page page⟩

/-! ## Reading a run of `Run` and of `Load` -/

/-- The error of lines 178-180 for the output type name `tn`. -/
def lookupError (tn : String) : String :=
  "could not find catalog type for model '" ++ tn ++ "', this is a bug in the importer"

/-- The error, if any, is not the one of lines 178-180. -/
def NotLookupError (err : Option String) : Prop := ∀ tn, err ≠ some (lookupError tn)

/-- The annotations of the `UpdateType` requests of a trace, in order. -/
def updateAnnotations (t : Trace) : List (Option StringMap) :=
  t.filterMap (fun e => match e.call with
    | .UpdateType _ body => some body.Annotations
    | _ => none)

/-- The request `Load` builds at `offset` (lines 68-86), for the parsed endpoint
`u` and the bearer `token`. -/
def requestAt (s : SourceBackstage) (token : String) (u : ParsedURL) (offset : Int) : Request :=
  ⟨{ u with Query := s.query offset u.Query }, authorization token⟩

/-- The value of `s.Offset` after `s.Offset += len(page)` for each of the pages. -/
def offsetAfter (offset : Int) (pages : List (List String)) : Int :=
  pages.foldl (fun o page => wrapInt64 (o + page.length)) offset

/-- The number of entries in the pages. -/
def entriesIn (pages : List (List String)) : Nat := (pages.map List.length).sum

/-- The test source with `sign_jwt: false` and the largest `int` as offset. -/
def overflowSource : SourceBackstage :=
  { unsignedTestSource with Offset := 9223372036854775807 }

end CatalogImporter

/-! # Theorems -/

namespace CatalogImporter

/-! ## Traces -/

theorem destroyedIds_append (t1 t2 : Trace) :
    destroyedIds (t1 ++ t2) = destroyedIds t1 ++ destroyedIds t2 := by
  simp [destroyedIds, List.filterMap_append]

theorem destroyedIds_eq_nil (t : Trace) (h : ∀ e ∈ t, e.isDestroy = false) :
    destroyedIds t = [] := by
  induction t with
  | nil => rfl
  | cons e t ih =>
    have he := h e (List.mem_cons_self _ _)
    have ht := ih (fun x hx => h x (List.mem_cons_of_mem _ hx))
    rcases e with ⟨c, r⟩
    cases c <;> simp_all [destroyedIds, Event.isDestroy]

theorem NoFail_append {t1 t2 : Trace} (h1 : NoFail t1) (h2 : NoFail t2) :
    NoFail (t1 ++ t2) := by
  intro e he
  rcases List.mem_append.1 he with h | h
  · exact h1 e h
  · exact h2 e h

theorem NoFail_dropLast {t : Trace} (h : NoFail t) : NoFail t.dropLast :=
  fun e he => h e (List.dropLast_subset t he)

theorem StopsAtFailure_append {t1 t2 : Trace} {err : Option String}
    (h1 : NoFail t1) (h2 : StopsAtFailure t2 err) : StopsAtFailure (t1 ++ t2) err := by
  refine ⟨fun he => NoFail_append h1 (h2.1 he), ?_⟩
  by_cases hnil : t2 = []
  · subst hnil
    simpa using NoFail_dropLast h1
  · rw [List.dropLast_append_of_ne_nil _ hnil]
    exact NoFail_append h1 h2.2

theorem StopsAtFailure_cons {e : Event} {t : Trace} {err : Option String}
    (h1 : e.failed = false) (h2 : StopsAtFailure t err) : StopsAtFailure (e :: t) err := by
  have : NoFail [e] := by
    intro x hx
    simp at hx
    subst hx
    exact h1
  exact StopsAtFailure_append this h2

theorem StopsAtFailure_last {t : Trace} {err : Option String} (h : StopsAtFailure t err)
    {pre post : Trace} {e : Event} (ht : t = pre ++ e :: post) (he : e.failed = true) :
    post = [] ∧ err ≠ none := by
  constructor
  · by_contra hpost
    have hmem : e ∈ t.dropLast := by
      rw [ht, show pre ++ e :: post = (pre ++ [e]) ++ post by simp,
        List.dropLast_append_of_ne_nil _ hpost]
      simp
    have := h.2 e hmem
    simp [he] at this
  · intro hnone
    have := h.1 hnone e (by rw [ht]; simp)
    simp [he] at this

/-! ## The phases of `Run` -/

theorem existingManaged_eq_filter (sid : String) (l : List CatalogTypeV2) :
    existingManaged sid l
      = l.filter (fun ct => ct.Annotations.lookup AnnotationSyncID == some sid) := by
  induction l with
  | nil => rfl
  | cons ct rest ih =>
    simp only [existingManaged, List.filter_cons]
    cases h : ct.Annotations.lookup AnnotationSyncID with
    | none => simp [ih]
    | some id => by_cases hid : id = sid <;> simp [hid, ih]

theorem toDestroy_eq_filter (outs : List Output) (l : List CatalogTypeV2) :
    toDestroy outs l
      = l.filter (fun ct => !outs.any (fun o => o.TypeName == ct.TypeName)) := by
  induction l with
  | nil => rfl
  | cons ct rest ih =>
    simp only [toDestroy, List.filter_cons]
    by_cases h : outs.any (fun o => o.TypeName == ct.TypeName) = true
    · simp only [h, if_true, Bool.not_true, ih]
      simp
    · simp only [h, if_false, ih]
      simp [h]

theorem toDestroy_existingManaged (cfg : Config) (remote : List CatalogTypeV2) :
    toDestroy cfg.Outputs (existingManaged cfg.SyncID remote)
      = managedUnconfigured cfg remote := by
  rw [toDestroy_eq_filter, existingManaged_eq_filter, managedUnconfigured, List.filter_filter]
  congr 1
  funext ct
  exact Bool.and_comm _ _

theorem destroyLoop_isDestroy (w : World) (l : List CatalogTypeV2) (hist : Trace) :
    ∀ e ∈ (destroyLoop w l hist).1, e.isDestroy = true := by
  induction l generalizing hist with
  | nil => simp [destroyLoop]
  | cons ct rest ih =>
    simp only [destroyLoop]
    cases h : w.destroyType hist ct.Id with
    | error e => simp [Event.isDestroy]
    | ok u =>
      intro e he
      rcases List.mem_cons.1 he with rfl | he
      · rfl
      · exact ih _ e he

theorem destroyLoop_stops (w : World) (l : List CatalogTypeV2) (hist : Trace) :
    StopsAtFailure (destroyLoop w l hist).1 (destroyLoop w l hist).2 := by
  induction l generalizing hist with
  | nil => simp [destroyLoop, StopsAtFailure, NoFail]
  | cons ct rest ih =>
    simp only [destroyLoop]
    cases h : w.destroyType hist ct.Id with
    | error e => simp [StopsAtFailure, NoFail]
    | ok u => exact StopsAtFailure_cons rfl (ih _)

theorem destroyLoop_ids_prefix (w : World) (l : List CatalogTypeV2) (hist : Trace) :
    destroyedIds (destroyLoop w l hist).1 <+: l.map CatalogTypeV2.Id := by
  induction l generalizing hist with
  | nil => simp [destroyLoop, destroyedIds]
  | cons ct rest ih =>
    simp only [destroyLoop]
    cases h : w.destroyType hist ct.Id with
    | error e =>
      simp only [destroyedIds, List.filterMap_cons, List.filterMap_nil, List.map_cons]
      exact ⟨rest.map CatalogTypeV2.Id, rfl⟩
    | ok u =>
      have := ih (hist ++ [⟨.DestroyType ct.Id, .done⟩])
      simp only [destroyedIds, List.filterMap_cons, List.map_cons] at this ⊢
      exact (List.prefix_cons_inj ct.Id).2 this

theorem destroyLoop_ids_of_noFail (w : World) (l : List CatalogTypeV2) (hist : Trace)
    (h : NoFail (destroyLoop w l hist).1) :
    destroyedIds (destroyLoop w l hist).1 = l.map CatalogTypeV2.Id := by
  induction l generalizing hist with
  | nil => simp [destroyLoop, destroyedIds]
  | cons ct rest ih =>
    simp only [destroyLoop] at h ⊢
    cases hd : w.destroyType hist ct.Id with
    | error e =>
      rw [hd] at h
      have := h _ (List.mem_singleton.2 rfl)
      simp [Event.failed] at this
    | ok u =>
      rw [hd] at h
      have h2 : NoFail (destroyLoop w rest (hist ++ [⟨.DestroyType ct.Id, .done⟩])).1 :=
        fun e he => h e (List.mem_cons_of_mem _ he)
      have := ih _ h2
      simp only [destroyedIds, List.filterMap_cons, List.map_cons] at this ⊢
      rw [this]

theorem createLoop_isCreate (w : World) (d : Deps) (sid : String) (outs : List Output)
    (existing : List CatalogTypeV2) (hist : Trace) :
    ∀ e ∈ (createLoop w d sid outs existing hist).1, e.isCreate = true := by
  induction outs generalizing existing hist with
  | nil => simp [createLoop]
  | cons o rest ih =>
    simp only [createLoop]
    split
    · exact ih _ _
    · cases h : w.createType hist (createBody d.Version (w.now hist) sid (MarshalType o)) with
      | error e => simp [Event.isCreate]
      | ok ct =>
        intro e he
        rcases List.mem_cons.1 he with rfl | he
        · rfl
        · exact ih _ _ e he

theorem createLoop_stops (w : World) (d : Deps) (sid : String) (outs : List Output)
    (existing : List CatalogTypeV2) (hist : Trace) :
    StopsAtFailure (createLoop w d sid outs existing hist).1
      (errOf (createLoop w d sid outs existing hist).2) := by
  induction outs generalizing existing hist with
  | nil => simp [createLoop, StopsAtFailure, NoFail, errOf]
  | cons o rest ih =>
    simp only [createLoop]
    split
    · exact ih _ _
    · cases h : w.createType hist (createBody d.Version (w.now hist) sid (MarshalType o)) with
      | error e => simp [StopsAtFailure, NoFail, errOf]
      | ok ct => exact StopsAtFailure_cons rfl (ih _ _)

theorem syncLoop_isUpdate (w : World) (lookup : List (String × CatalogTypeV2))
    (outs : List Output) (hist : Trace) :
    ∀ e ∈ (syncLoop w lookup outs hist).1, e.isUpdate = true := by
  induction outs generalizing hist with
  | nil => simp [syncLoop]
  | cons o rest ih =>
    simp only [syncLoop]
    cases hl : lookup.lookup o.TypeName with
    | none => simp
    | some ct =>
      simp only []
      cases hu : w.updateType hist ct.Id (updateBody (MarshalType o)) with
      | error e => simp [Event.isUpdate]
      | ok res =>
        simp only []
        cases hs : w.updateTypeSchema
            (hist ++ [⟨.UpdateType ct.Id (updateBody (MarshalType o)), .catalogType res⟩])
            ct.Id ⟨res.SchemaVersion, (MarshalType o).Attributes⟩ with
        | error e => simp [Event.isUpdate]
        | ok u =>
          intro e he
          rcases List.mem_cons.1 he with rfl | he
          · rfl
          rcases List.mem_cons.1 he with rfl | he
          · rfl
          · exact ih _ e he

theorem syncLoop_stops (w : World) (lookup : List (String × CatalogTypeV2))
    (outs : List Output) (hist : Trace) :
    StopsAtFailure (syncLoop w lookup outs hist).1 (syncLoop w lookup outs hist).2 := by
  induction outs generalizing hist with
  | nil => simp [syncLoop, StopsAtFailure, NoFail]
  | cons o rest ih =>
    simp only [syncLoop]
    cases hl : lookup.lookup o.TypeName with
    | none => simp [StopsAtFailure, NoFail]
    | some ct =>
      simp only []
      cases hu : w.updateType hist ct.Id (updateBody (MarshalType o)) with
      | error e => simp [StopsAtFailure, NoFail]
      | ok res =>
        simp only []
        cases hs : w.updateTypeSchema
            (hist ++ [⟨.UpdateType ct.Id (updateBody (MarshalType o)), .catalogType res⟩])
            ct.Id ⟨res.SchemaVersion, (MarshalType o).Attributes⟩ with
        | error e =>
          simp only [StopsAtFailure, NoFail]
          simp [Event.failed]
        | ok u => exact StopsAtFailure_cons rfl (StopsAtFailure_cons rfl (ih _))

theorem loadSources_isPipelineCall (w : World) (d : Deps) (srcs : List Source)
    (acc : List Entry) (hist : Trace) :
    ∀ e ∈ (loadSources w d srcs acc hist).1, e.isPipelineCall = true := by
  induction srcs generalizing acc hist with
  | nil => simp [loadSources]
  | cons src rest ih =>
    simp only [loadSources]
    cases hl : w.load hist src with
    | error e => simp [Event.isPipelineCall]
    | ok ses =>
      simp only []
      cases hp : parseAll d ses acc with
      | error e => simp [Event.isPipelineCall]
      | ok acc2 =>
        intro e he
        rcases List.mem_cons.1 he with rfl | he
        · rfl
        · exact ih _ _ e he

theorem loadSources_stops (w : World) (d : Deps) (srcs : List Source)
    (acc : List Entry) (hist : Trace) :
    StopsAtFailure (loadSources w d srcs acc hist).1
      (errOf (loadSources w d srcs acc hist).2) := by
  induction srcs generalizing acc hist with
  | nil => simp [loadSources, StopsAtFailure, NoFail, errOf]
  | cons src rest ih =>
    simp only [loadSources]
    cases hl : w.load hist src with
    | error e => simp [StopsAtFailure, NoFail, errOf]
    | ok ses =>
      simp only []
      cases hp : parseAll d ses acc with
      | error e => simp [StopsAtFailure, NoFail, errOf]
      | ok acc2 => exact StopsAtFailure_cons rfl (ih _ _)

theorem syncOutputs_isPipelineCall (w : World) (d : Deps)
    (lookup : List (String × CatalogTypeV2)) (entries : List Entry) (outs : List Output)
    (idx : Nat) (hist : Trace) :
    ∀ e ∈ (syncOutputs w d lookup entries outs idx hist).1, e.isPipelineCall = true := by
  induction outs generalizing idx hist with
  | nil => simp [syncOutputs]
  | cons o rest ih =>
    simp only [syncOutputs]
    cases hc : d.collect o entries with
    | error e => simp
    | ok es =>
      simp only []
      cases hm : d.marshalEntries o es with
      | error e => simp
      | ok ms =>
        simp only []
        cases hr : w.reconcileEntries hist (lookup.lookup o.TypeName) ms with
        | error e => simp [Event.isPipelineCall]
        | ok u =>
          intro e he
          rcases List.mem_cons.1 he with rfl | he
          · rfl
          · exact ih _ _ e he

theorem syncOutputs_stops (w : World) (d : Deps)
    (lookup : List (String × CatalogTypeV2)) (entries : List Entry) (outs : List Output)
    (idx : Nat) (hist : Trace) :
    StopsAtFailure (syncOutputs w d lookup entries outs idx hist).1
      (syncOutputs w d lookup entries outs idx hist).2 := by
  induction outs generalizing idx hist with
  | nil => simp [syncOutputs, StopsAtFailure, NoFail]
  | cons o rest ih =>
    simp only [syncOutputs]
    cases hc : d.collect o entries with
    | error e => simp [StopsAtFailure, NoFail]
    | ok es =>
      simp only []
      cases hm : d.marshalEntries o es with
      | error e => simp [StopsAtFailure, NoFail]
      | ok ms =>
        simp only []
        cases hr : w.reconcileEntries hist (lookup.lookup o.TypeName) ms with
        | error e => simp [StopsAtFailure, NoFail]
        | ok u => exact StopsAtFailure_cons rfl (ih _ _)

theorem StopsAtFailure_noFail {t : Trace} (h : StopsAtFailure t none) : NoFail t := h.1 rfl

theorem runPipelines_isPipelineCall (w : World) (d : Deps)
    (lookup : List (String × CatalogTypeV2)) (ps : List Pipeline) (hist : Trace) :
    ∀ e ∈ (runPipelines w d lookup ps hist).1, e.isPipelineCall = true := by
  induction ps generalizing hist with
  | nil => simp [runPipelines]
  | cons p rest ih =>
    simp only [runPipelines]
    have h1 := loadSources_isPipelineCall w d p.Sources [] hist
    rcases hl : loadSources w d p.Sources [] hist with ⟨t1, r1⟩
    rw [hl] at h1
    cases r1 with
    | error e => exact h1
    | ok entries =>
      simp only []
      have h2 := syncOutputs_isPipelineCall w d lookup entries p.Outputs 0 (hist ++ t1)
      rcases hs : syncOutputs w d lookup entries p.Outputs 0 (hist ++ t1) with ⟨t2, r2⟩
      rw [hs] at h2
      cases r2 with
      | some e =>
        intro x hx
        rcases List.mem_append.1 hx with hx | hx
        · exact h1 x hx
        · exact h2 x hx
      | none =>
        intro x hx
        simp only [List.mem_append] at hx
        rcases hx with (hx | hx) | hx
        · exact h1 x hx
        · exact h2 x hx
        · exact ih _ x hx

theorem runPipelines_stops (w : World) (d : Deps)
    (lookup : List (String × CatalogTypeV2)) (ps : List Pipeline) (hist : Trace) :
    StopsAtFailure (runPipelines w d lookup ps hist).1 (runPipelines w d lookup ps hist).2 := by
  induction ps generalizing hist with
  | nil => simp [runPipelines, StopsAtFailure, NoFail]
  | cons p rest ih =>
    simp only [runPipelines]
    have h1 := loadSources_stops w d p.Sources [] hist
    rcases hl : loadSources w d p.Sources [] hist with ⟨t1, r1⟩
    rw [hl] at h1
    cases r1 with
    | error e =>
      simp only [errOf] at h1
      exact h1
    | ok entries =>
      simp only [errOf] at h1
      simp only []
      have h2 := syncOutputs_stops w d lookup entries p.Outputs 0 (hist ++ t1)
      rcases hs : syncOutputs w d lookup entries p.Outputs 0 (hist ++ t1) with ⟨t2, r2⟩
      rw [hs] at h2
      cases r2 with
      | some e => exact StopsAtFailure_append (StopsAtFailure_noFail h1) h2
      | none =>
        exact StopsAtFailure_append
          (NoFail_append (StopsAtFailure_noFail h1) (StopsAtFailure_noFail h2)) (ih _)

theorem afterPrune_phases (w : World) (d : Deps) (cfg : Config)
    (ex : List CatalogTypeV2) (hist : Trace) :
    ∃ tS tL : Trace,
      (afterPrune w d cfg ex hist).1
        = (createLoop w d cfg.SyncID cfg.Outputs ex hist).1 ++ tS ++ tL ∧
      (∀ e ∈ tS, e.isUpdate = true) ∧ (∀ e ∈ tL, e.isPipelineCall = true) ∧
      (∀ ex2 lk, (createLoop w d cfg.SyncID cfg.Outputs ex hist).2 = .ok ex2 →
        buildLookup ex2 cfg.Outputs [] = .ok lk →
        tS = (syncLoop w lk cfg.Outputs
          (hist ++ (createLoop w d cfg.SyncID cfg.Outputs ex hist).1)).1) ∧
      (∀ ex2 e, (createLoop w d cfg.SyncID cfg.Outputs ex hist).2 = .ok ex2 →
        buildLookup ex2 cfg.Outputs [] = .error e →
        tS = [] ∧ tL = [] ∧ (afterPrune w d cfg ex hist).2 = some e) := by
  unfold afterPrune
  rcases hc : createLoop w d cfg.SyncID cfg.Outputs ex hist with ⟨tC, rC⟩
  cases rC with
  | error e => exact ⟨[], [], by simp, by simp, by simp, by simp, by simp⟩
  | ok ex2 =>
    simp only []
    cases hb : buildLookup ex2 cfg.Outputs [] with
    | error e =>
      refine ⟨[], [], by simp, by simp, by simp, ?_, ?_⟩
      · intro ex3 lk h3 hlk
        simp only [Except.ok.injEq] at h3
        subst h3
        simp [hb] at hlk
      · intro ex3 e3 h3 he3
        simp only [Except.ok.injEq] at h3
        subst h3
        rw [hb] at he3
        simp only [Except.error.injEq] at he3
        simp [he3]
    | ok lk =>
      simp only []
      have hS := syncLoop_isUpdate w lk cfg.Outputs (hist ++ tC)
      rcases hs : syncLoop w lk cfg.Outputs (hist ++ tC) with ⟨tS, rS⟩
      rw [hs] at hS
      have hlk : ∀ ex3 lk3, (Except.ok ex2 : Except String _) = .ok ex3 →
          buildLookup ex3 cfg.Outputs [] = .ok lk3 →
          tS = (syncLoop w lk3 cfg.Outputs (hist ++ tC)).1 := by
        intro ex3 lk3 h3 hlk3
        simp only [Except.ok.injEq] at h3
        subst h3
        rw [hb] at hlk3
        simp only [Except.ok.injEq] at hlk3
        subst hlk3
        rw [hs]
      have herr : ∀ ex3 e3, (Except.ok ex2 : Except String _) = .ok ex3 →
          buildLookup ex3 cfg.Outputs [] = .error e3 → False := by
        intro ex3 e3 h3 he3
        simp only [Except.ok.injEq] at h3
        subst h3
        simp [hb] at he3
      cases rS with
      | some e =>
        exact ⟨tS, [], by simp, hS, by simp, hlk, fun a b h1 h2 => (herr a b h1 h2).elim⟩
      | none =>
        exact ⟨tS, (runPipelines w d lk cfg.Pipelines (hist ++ tC ++ tS)).1, by simp, hS,
          runPipelines_isPipelineCall _ _ _ _ _, hlk,
          fun a b h1 h2 => (herr a b h1 h2).elim⟩

theorem afterPrune_stops (w : World) (d : Deps) (cfg : Config)
    (ex : List CatalogTypeV2) (hist : Trace) :
    StopsAtFailure (afterPrune w d cfg ex hist).1 (afterPrune w d cfg ex hist).2 := by
  unfold afterPrune
  have hC := createLoop_stops w d cfg.SyncID cfg.Outputs ex hist
  rcases hc : createLoop w d cfg.SyncID cfg.Outputs ex hist with ⟨tC, rC⟩
  rw [hc] at hC
  cases rC with
  | error e => simpa [errOf] using hC
  | ok ex2 =>
    simp only [errOf] at hC
    have hC2 := StopsAtFailure_noFail hC
    simp only []
    cases hb : buildLookup ex2 cfg.Outputs [] with
    | error e => exact ⟨by simp, NoFail_dropLast hC2⟩
    | ok lk =>
      simp only []
      have hS := syncLoop_stops w lk cfg.Outputs (hist ++ tC)
      rcases hs : syncLoop w lk cfg.Outputs (hist ++ tC) with ⟨tS, rS⟩
      rw [hs] at hS
      cases rS with
      | some e => exact StopsAtFailure_append hC2 hS
      | none =>
        exact StopsAtFailure_append (NoFail_append hC2 (StopsAtFailure_noFail hS))
          (runPipelines_stops _ _ _ _ _)

theorem afterPrune_not_destroy (w : World) (d : Deps) (cfg : Config)
    (ex : List CatalogTypeV2) (hist : Trace) :
    ∀ e ∈ (afterPrune w d cfg ex hist).1, e.isDestroy = false := by
  obtain ⟨tS, tL, ht, hS, hL, -, -⟩ := afterPrune_phases w d cfg ex hist
  intro e he
  rw [ht] at he
  simp only [List.mem_append] at he
  have hk : e.isCreate = true ∨ e.isUpdate = true ∨ e.isPipelineCall = true := by
    rcases he with (he | he) | he
    · exact Or.inl (createLoop_isCreate _ _ _ _ _ _ e he)
    · exact Or.inr (Or.inl (hS e he))
    · exact Or.inr (Or.inr (hL e he))
  rcases e with ⟨c, r⟩
  cases c <;> simp_all [Event.isDestroy, Event.isCreate, Event.isUpdate, Event.isPipelineCall]

theorem prunePhase_stops (w : World) (opt : SyncOptions) (cfg : Config)
    (ex : List CatalogTypeV2) (hist : Trace) :
    StopsAtFailure (prunePhase w opt cfg ex hist).1 (prunePhase w opt cfg ex hist).2 := by
  unfold prunePhase
  split
  · exact destroyLoop_stops _ _ _
  · simp [StopsAtFailure, NoFail]

theorem prunePhase_isDestroy (w : World) (opt : SyncOptions) (cfg : Config)
    (ex : List CatalogTypeV2) (hist : Trace) :
    ∀ e ∈ (prunePhase w opt cfg ex hist).1, e.isDestroy = true := by
  unfold prunePhase
  split
  · exact destroyLoop_isDestroy _ _ _
  · simp

/-- The trace of `Run` after a successful `ListTypes`: the prune phase, then
(when the prune phase reports no error) everything else. -/
theorem Run_trace_eq (w : World) (d : Deps) (opt : SyncOptions) (cfg : Config)
    (remote : List CatalogTypeV2) (hlist : w.listTypes [] = .ok remote) :
    ∃ rest : Trace,
      (Run w d opt cfg).trace
        = ⟨.ListTypes, .catalogTypes remote⟩ ::
          ((prunePhase w opt cfg (existingManaged cfg.SyncID remote)
            [⟨.ListTypes, .catalogTypes remote⟩]).1 ++ rest) ∧
      (∀ e ∈ rest, e.isDestroy = false) ∧
      ((prunePhase w opt cfg (existingManaged cfg.SyncID remote)
          [⟨.ListTypes, .catalogTypes remote⟩]).2 = none →
        rest = (afterPrune w d cfg (existingManaged cfg.SyncID remote)
          (⟨.ListTypes, .catalogTypes remote⟩ ::
            (prunePhase w opt cfg (existingManaged cfg.SyncID remote)
              [⟨.ListTypes, .catalogTypes remote⟩]).1)).1 ∧
        (Run w d opt cfg).err = (afterPrune w d cfg (existingManaged cfg.SyncID remote)
          (⟨.ListTypes, .catalogTypes remote⟩ ::
            (prunePhase w opt cfg (existingManaged cfg.SyncID remote)
              [⟨.ListTypes, .catalogTypes remote⟩]).1)).2) ∧
      (∀ e, (prunePhase w opt cfg (existingManaged cfg.SyncID remote)
          [⟨.ListTypes, .catalogTypes remote⟩]).2 = some e →
        rest = [] ∧ (Run w d opt cfg).err = some e) := by
  unfold Run
  rw [hlist]
  simp only []
  rcases hp : prunePhase w opt cfg (existingManaged cfg.SyncID remote)
    [⟨.ListTypes, .catalogTypes remote⟩] with ⟨t1, r1⟩
  cases r1 with
  | some e => exact ⟨[], by simp, by simp, by simp, by simp⟩
  | none =>
    exact ⟨_, rfl, afterPrune_not_destroy _ _ _ _ _, fun _ => ⟨rfl, rfl⟩, by simp⟩

theorem Run_stops (w : World) (d : Deps) (opt : SyncOptions) (cfg : Config) :
    StopsAtFailure (Run w d opt cfg).trace (Run w d opt cfg).err := by
  unfold Run
  cases hlist : w.listTypes [] with
  | error e => simp [StopsAtFailure, NoFail]
  | ok remote =>
    simp only []
    have hP := prunePhase_stops w opt cfg (existingManaged cfg.SyncID remote)
      [⟨.ListTypes, .catalogTypes remote⟩]
    rcases hp : prunePhase w opt cfg (existingManaged cfg.SyncID remote)
      [⟨.ListTypes, .catalogTypes remote⟩] with ⟨t1, r1⟩
    rw [hp] at hP
    cases r1 with
    | some e => exact StopsAtFailure_cons rfl hP
    | none =>
      exact StopsAtFailure_cons rfl
        (StopsAtFailure_append (StopsAtFailure_noFail hP) (afterPrune_stops _ _ _ _ _))

/-! ## C1: what the prune phase destroys -/

/-- C1 (as amended): after a successful `ListTypes`, the ids passed to
`DestroyType` are empty when `Prune` is false; they are always an initial part
of the ids of the remote types that carry the configured sync id and match no
configured output; they are exactly those ids when `Prune` is true and no
`DestroyType` call fails; and every destroyed id belongs to a remote type whose
sync-id annotation is present and equal to the configured sync id. -/
theorem Run_destroys_only_managed_unconfigured (w : World) (d : Deps) (opt : SyncOptions)
    (cfg : Config) (remote : List CatalogTypeV2) (hlist : w.listTypes [] = .ok remote) :
    (opt.Prune = false → destroyedIds (Run w d opt cfg).trace = []) ∧
    destroyedIds (Run w d opt cfg).trace
      <+: (managedUnconfigured cfg remote).map CatalogTypeV2.Id ∧
    (opt.Prune = true →
      (∀ e ∈ (Run w d opt cfg).trace, e.isDestroy = true → e.failed = false) →
      destroyedIds (Run w d opt cfg).trace
        = (managedUnconfigured cfg remote).map CatalogTypeV2.Id) ∧
    (∀ id ∈ destroyedIds (Run w d opt cfg).trace,
      ∃ ct ∈ remote, ct.Id = id ∧
        ct.Annotations.lookup AnnotationSyncID = some cfg.SyncID ∧
        ∀ o ∈ cfg.Outputs, o.TypeName ≠ ct.TypeName) := by
  obtain ⟨rest, ht, hrest, -, -⟩ := Run_trace_eq w d opt cfg remote hlist
  have hids : destroyedIds (Run w d opt cfg).trace
      = destroyedIds (prunePhase w opt cfg (existingManaged cfg.SyncID remote)
          [⟨.ListTypes, .catalogTypes remote⟩]).1 := by
    rw [ht]
    have : destroyedIds (⟨.ListTypes, .catalogTypes remote⟩ ::
        ((prunePhase w opt cfg (existingManaged cfg.SyncID remote)
          [⟨.ListTypes, .catalogTypes remote⟩]).1 ++ rest))
        = destroyedIds ((prunePhase w opt cfg (existingManaged cfg.SyncID remote)
          [⟨.ListTypes, .catalogTypes remote⟩]).1 ++ rest) := by
      simp [destroyedIds]
    rw [this, destroyedIds_append, destroyedIds_eq_nil rest hrest, List.append_nil]
  have hinit : destroyedIds (Run w d opt cfg).trace
      <+: (managedUnconfigured cfg remote).map CatalogTypeV2.Id := by
    rw [hids]
    unfold prunePhase
    split
    · rw [← toDestroy_existingManaged]
      exact destroyLoop_ids_prefix _ _ _
    · simp [destroyedIds]
  refine ⟨?_, hinit, ?_, ?_⟩
  · intro hp
    rw [hids]
    simp [prunePhase, hp, destroyedIds]
  · intro hp hok
    rw [hids]
    have hnf : NoFail (prunePhase w opt cfg (existingManaged cfg.SyncID remote)
        [⟨.ListTypes, .catalogTypes remote⟩]).1 := by
      intro e he
      apply hok e
      · rw [ht]
        exact List.mem_cons_of_mem _ (List.mem_append_left _ he)
      · exact prunePhase_isDestroy _ _ _ _ _ e he
    simp only [prunePhase, hp, if_true] at hnf ⊢
    rw [← toDestroy_existingManaged]
    exact destroyLoop_ids_of_noFail _ _ _ hnf
  · intro id hid
    have hmem := hinit.subset hid
    obtain ⟨ct, hct, rfl⟩ := List.mem_map.1 hmem
    simp only [managedUnconfigured, List.mem_filter, Bool.and_eq_true, beq_iff_eq,
      Bool.not_eq_true', List.any_eq_false] at hct
    refine ⟨ct, hct.1, rfl, hct.2.1, ?_⟩
    intro o ho heq
    exact hct.2.2 o ho (by simp [heq])

/-- C1, witness: scenario S6 with `Prune` on a server that never fails destroys
exactly `T2` and `T4`. -/
theorem Run_destroys_only_managed_unconfigured_witness :
    destroyedIds (Run (okWorld s6Remote) plainDeps ⟨true⟩ s6Config).trace = ["t2", "t4"] ∧
    ∀ id ∈ destroyedIds (Run (okWorld s6Remote) plainDeps ⟨true⟩ s6Config).trace,
      ∃ ct ∈ s6Remote, ct.Id = id ∧
        ct.Annotations.lookup AnnotationSyncID = some s6Config.SyncID ∧
        ∀ o ∈ s6Config.Outputs, o.TypeName ≠ ct.TypeName :=
  ⟨by decide,
    (Run_destroys_only_managed_unconfigured (okWorld s6Remote) plainDeps ⟨true⟩ s6Config
      s6Remote rfl).2.2.2⟩

/-- C1, counterexample: with `Prune` on, `T4` carries the configured sync id
and matches no configured output, yet it is never passed to `DestroyType`,
because the call for `T2` fails and `Run` returns there. -/
theorem Run_destroy_stops_at_failed_call :
    (failingDestroyWorld s6Remote).listTypes [] = .ok s6Remote ∧
    (managedUnconfigured s6Config s6Remote).map CatalogTypeV2.Id = ["t2", "t4"] ∧
    destroyedIds (Run (failingDestroyWorld s6Remote) plainDeps ⟨true⟩ s6Config).trace
      = ["t2"] ∧
    (Run (failingDestroyWorld s6Remote) plainDeps ⟨true⟩ s6Config).err
      = some "removing catalog type: 503 Service Unavailable" := by
  refine ⟨rfl, ?_, ?_, ?_⟩ <;> decide

/-! ## C2: what the create phase creates -/

theorem createdBodies_append (t1 t2 : Trace) :
    createdBodies (t1 ++ t2) = createdBodies t1 ++ createdBodies t2 := by
  simp [createdBodies, List.filterMap_append]

theorem createdBodies_eq_nil (t : Trace) (h : ∀ e ∈ t, e.isCreate = false) :
    createdBodies t = [] := by
  induction t with
  | nil => rfl
  | cons e t ih =>
    have he := h e (List.mem_cons_self _ _)
    have ht := ih (fun x hx => h x (List.mem_cons_of_mem _ hx))
    rcases e with ⟨c, r⟩
    cases c <;> simp_all [createdBodies, Event.isCreate]

theorem firstPerTypeName_filter (q : String → Bool) (l : List Output) :
    firstPerTypeName (l.filter (fun o => q o.TypeName))
      = (firstPerTypeName l).filter (fun o => q o.TypeName) := by
  induction l with
  | nil => rfl
  | cons x l ih =>
    by_cases hq : q x.TypeName = true
    · simp only [List.filter_cons, hq, if_true, firstPerTypeName, ih, List.filter_filter]
      congr 1
      apply List.filter_congr
      intro p _
      exact Bool.and_comm _ _
    · simp only [List.filter_cons, hq, firstPerTypeName, List.filter_filter]
      simp only [Bool.false_eq_true, if_false]
      rw [ih]
      apply List.filter_congr
      intro p _
      by_cases hp : q p.TypeName = true
      · have : p.TypeName ≠ x.TypeName := fun h => hq (h ▸ hp)
        simp [hp, this]
      · simp [hp]

theorem newOutputs_congr (n1 n2 : List String) (h : ∀ x, x ∈ n1 ↔ x ∈ n2)
    (l : List Output) : newOutputs n1 l = newOutputs n2 l := by
  induction l generalizing n1 n2 with
  | nil => rfl
  | cons o rest ih =>
    have hc : n1.contains o.TypeName = n2.contains o.TypeName := by
      rw [Bool.eq_iff_iff]
      simp [h]
    simp only [newOutputs, hc]
    split
    · exact ih _ _ h
    · rw [ih (n1 ++ [o.TypeName]) (n2 ++ [o.TypeName])]
      intro x
      simp [h]

theorem newOutputs_eq (names : List String) (l : List Output) :
    newOutputs names l
      = firstPerTypeName (l.filter (fun o => !names.contains o.TypeName)) := by
  induction l generalizing names with
  | nil => rfl
  | cons o rest ih =>
    by_cases hc : names.contains o.TypeName = true
    · simp only [newOutputs, hc, if_true, List.filter_cons, Bool.not_true]
      simpa using ih names
    · simp only [newOutputs, hc, List.filter_cons]
      simp only [Bool.false_eq_true, if_false, Bool.not_eq_true] at hc ⊢
      simp only [hc, Bool.not_false, if_true, firstPerTypeName]
      congr 1
      rw [ih, ← firstPerTypeName_filter (fun tn => tn != o.TypeName), List.filter_filter]
      congr 1
      apply List.filter_congr
      intro p _
      by_cases hp : p.TypeName = o.TypeName <;> simp [hp, List.contains_eq_any_beq]

theorem firstPerTypeName_sublist (l : List Output) : (firstPerTypeName l).Sublist l := by
  induction l with
  | nil => exact List.Sublist.slnil
  | cons o rest ih =>
    exact ((List.filter_sublist _).trans ih).cons₂ o

theorem firstPerTypeName_nodup (l : List Output) :
    ((firstPerTypeName l).map Output.TypeName).Nodup := by
  induction l with
  | nil => simp [firstPerTypeName]
  | cons o rest ih =>
    simp only [firstPerTypeName, List.map_cons, List.nodup_cons]
    constructor
    · intro hmem
      obtain ⟨p, hp, hpo⟩ := List.mem_map.1 hmem
      simp [hpo] at hp
    · exact ih.sublist ((List.filter_sublist _).map _)

theorem any_typeName_eq_contains (existing : List CatalogTypeV2) (o : Output) :
    existing.any (fun ct => (MarshalType o).TypeName == ct.TypeName)
      = (existing.map CatalogTypeV2.TypeName).contains o.TypeName := by
  induction existing with
  | nil => rfl
  | cons ct rest ih =>
    simp only [MarshalType] at ih ⊢
    simp only [List.any_cons, List.map_cons, List.contains_cons, ih]

theorem createBody_carries (version now sid : String) (o : Output) :
    CarriesOutput sid o (createBody version now sid (MarshalType o)) := by
  refine ⟨rfl, rfl, rfl, _, rfl, ?_⟩
  simp [getAnnotations, List.lookup]

/-- The create loop when none of its calls fails and the replies carry the
requested type name. -/
theorem createLoop_spec (w : World) (d : Deps) (sid : String) (outs : List Output)
    (existing : List CatalogTypeV2) (hist : Trace)
    (hnf : NoFail (createLoop w d sid outs existing hist).1)
    (hecho : EchoesTypeName (createLoop w d sid outs existing hist).1) :
    ∃ ex2, (createLoop w d sid outs existing hist).2 = .ok ex2 ∧ existing <+: ex2 ∧
      (∀ o ∈ outs, o.TypeName ∈ ex2.map CatalogTypeV2.TypeName) ∧
      List.Forall₂ (CarriesOutput sid)
        (newOutputs (existing.map CatalogTypeV2.TypeName) outs)
        (createdBodies (createLoop w d sid outs existing hist).1) := by
  induction outs generalizing existing hist with
  | nil =>
    exact ⟨existing, rfl, List.prefix_refl _, by simp, by simp [createLoop, newOutputs,
      createdBodies]⟩
  | cons o rest ih =>
    simp only [createLoop] at hnf hecho ⊢
    have hany := any_typeName_eq_contains existing o
    by_cases hc : existing.any (fun ct => (MarshalType o).TypeName == ct.TypeName) = true
    · simp only [hc, if_true] at hnf hecho ⊢
      obtain ⟨ex2, hok, hpre, hall, hf⟩ := ih existing hist hnf hecho
      refine ⟨ex2, hok, hpre, ?_, ?_⟩
      · intro p hp
        rcases List.mem_cons.1 hp with rfl | hp
        · rw [hany] at hc
          have : p.TypeName ∈ existing.map CatalogTypeV2.TypeName := by simpa using hc
          exact (List.map_subset _ hpre.subset) this
        · exact hall p hp
      · rw [hany] at hc
        simp only [newOutputs, hc, if_true]
        exact hf
    · simp only [hc] at hnf hecho ⊢
      simp only [Bool.false_eq_true, if_false] at hnf hecho ⊢
      cases hcr : w.createType hist (createBody d.Version (w.now hist) sid (MarshalType o)) with
      | error e =>
        rw [hcr] at hnf
        have := hnf _ (List.mem_singleton.2 rfl)
        simp [Event.failed] at this
      | ok ct =>
        rw [hcr] at hnf hecho
        simp only [] at hnf hecho ⊢
        have hct : ct.TypeName = o.TypeName := by
          have := hecho _ (List.mem_cons_self _ _)
          simp only [Event.echoesTypeName, createBody, MarshalType, beq_iff_eq,
            Option.some.injEq] at this
          exact this.symm
        obtain ⟨ex2, hok, hpre, hall, hf⟩ := ih (existing ++ [ct]) _
          (fun e he => hnf e (List.mem_cons_of_mem _ he))
          (fun e he => hecho e (List.mem_cons_of_mem _ he))
        refine ⟨ex2, hok, (List.prefix_append _ _).trans hpre, ?_, ?_⟩
        · intro p hp
          rcases List.mem_cons.1 hp with rfl | hp
          · have : ct ∈ ex2 := hpre.subset (by simp)
            exact List.mem_map.2 ⟨ct, this, hct⟩
          · exact hall p hp
        · rw [hany] at hc
          simp only [newOutputs, hc, Bool.false_eq_true, if_false, createdBodies,
            List.filterMap_cons]
          refine List.Forall₂.cons (createBody_carries _ _ _ _) ?_
          simpa [createdBodies, hct] using hf

theorem destroyLoop_noFail_none (w : World) (l : List CatalogTypeV2) (hist : Trace)
    (h : NoFail (destroyLoop w l hist).1) : (destroyLoop w l hist).2 = none := by
  induction l generalizing hist with
  | nil => rfl
  | cons ct rest ih =>
    simp only [destroyLoop] at h ⊢
    cases hd : w.destroyType hist ct.Id with
    | error e =>
      rw [hd] at h
      have := h _ (List.mem_singleton.2 rfl)
      simp [Event.failed] at this
    | ok u =>
      rw [hd] at h
      exact ih _ (fun e he => h e (List.mem_cons_of_mem _ he))

theorem prunePhase_noFail_none (w : World) (opt : SyncOptions) (cfg : Config)
    (ex : List CatalogTypeV2) (hist : Trace)
    (h : NoFail (prunePhase w opt cfg ex hist).1) : (prunePhase w opt cfg ex hist).2 = none := by
  unfold prunePhase at h ⊢
  split
  · rename_i hp
    simp only [hp, if_true] at h
    exact destroyLoop_noFail_none _ _ _ h
  · rfl

theorem isDestroy_isAPICall {e : Event} (h : e.isDestroy = true) : e.isAPICall = true := by
  rcases e with ⟨c, r⟩
  cases c <;> simp_all [Event.isDestroy, Event.isAPICall]

theorem isCreate_isAPICall {e : Event} (h : e.isCreate = true) : e.isAPICall = true := by
  rcases e with ⟨c, r⟩
  cases c <;> simp_all [Event.isCreate, Event.isAPICall]

theorem isUpdate_isAPICall {e : Event} (h : e.isUpdate = true) : e.isAPICall = true := by
  rcases e with ⟨c, r⟩
  cases c <;> simp_all [Event.isUpdate, Event.isAPICall]

theorem isUpdate_not_isCreate {e : Event} (h : e.isUpdate = true) : e.isCreate = false := by
  rcases e with ⟨c, r⟩
  cases c <;> simp_all [Event.isUpdate, Event.isCreate]

theorem isPipelineCall_not_isCreate {e : Event} (h : e.isPipelineCall = true) :
    e.isCreate = false := by
  rcases e with ⟨c, r⟩
  cases c <;> simp_all [Event.isPipelineCall, Event.isCreate]

theorem isDestroy_not_isCreate {e : Event} (h : e.isDestroy = true) : e.isCreate = false := by
  rcases e with ⟨c, r⟩
  cases c <;> simp_all [Event.isDestroy, Event.isCreate]

theorem Forall₂_carries_typeNames (sid : String) {os : List Output}
    {bs : List CreateTypeRequestBody} (h : List.Forall₂ (CarriesOutput sid) os bs) :
    bs.map CreateTypeRequestBody.TypeName = os.map (fun o => some o.TypeName) := by
  induction h with
  | nil => rfl
  | cons hab _ ih => simp [ih, hab.2.2.1]

theorem unmanagedOutputs_eq (cfg : Config) (remote : List CatalogTypeV2) :
    firstPerTypeName (unmanagedOutputs cfg remote)
      = newOutputs ((existingManaged cfg.SyncID remote).map CatalogTypeV2.TypeName)
          cfg.Outputs := by
  rw [newOutputs_eq, unmanagedOutputs]
  congr 1
  apply List.filter_congr
  intro o _
  rw [← any_typeName_eq_contains]
  rfl

/-- The shape of a run in which no call of the catalog API fails: the prune
phase, the whole create loop, then update and pipeline calls. -/
theorem Run_trace_of_noAPIFailure (w : World) (d : Deps) (opt : SyncOptions) (cfg : Config)
    (remote : List CatalogTypeV2) (hlist : w.listTypes [] = .ok remote)
    (hnf : NoAPIFailure (Run w d opt cfg).trace) :
    ∃ tP tS tL : Trace,
      (Run w d opt cfg).trace
        = ⟨.ListTypes, .catalogTypes remote⟩ ::
          (tP ++ ((createLoop w d cfg.SyncID cfg.Outputs (existingManaged cfg.SyncID remote)
            (⟨.ListTypes, .catalogTypes remote⟩ :: tP)).1 ++ tS ++ tL)) ∧
      (∀ e ∈ tP, e.isDestroy = true) ∧ (∀ e ∈ tS, e.isUpdate = true) ∧
      (∀ e ∈ tL, e.isPipelineCall = true) ∧
      (∀ ex2 lk, (createLoop w d cfg.SyncID cfg.Outputs (existingManaged cfg.SyncID remote)
            (⟨.ListTypes, .catalogTypes remote⟩ :: tP)).2 = .ok ex2 →
        buildLookup ex2 cfg.Outputs [] = .ok lk →
        tS = (syncLoop w lk cfg.Outputs ((⟨.ListTypes, .catalogTypes remote⟩ :: tP) ++
          (createLoop w d cfg.SyncID cfg.Outputs (existingManaged cfg.SyncID remote)
            (⟨.ListTypes, .catalogTypes remote⟩ :: tP)).1)).1) ∧
      (∀ ex2 e, (createLoop w d cfg.SyncID cfg.Outputs (existingManaged cfg.SyncID remote)
            (⟨.ListTypes, .catalogTypes remote⟩ :: tP)).2 = .ok ex2 →
        buildLookup ex2 cfg.Outputs [] = .error e →
        tS = [] ∧ tL = [] ∧ (Run w d opt cfg).err = some e) := by
  obtain ⟨rest, ht, -, hnone, -⟩ := Run_trace_eq w d opt cfg remote hlist
  have hPd := prunePhase_isDestroy w opt cfg (existingManaged cfg.SyncID remote)
    [⟨.ListTypes, .catalogTypes remote⟩]
  have hPnf : NoFail (prunePhase w opt cfg (existingManaged cfg.SyncID remote)
      [⟨.ListTypes, .catalogTypes remote⟩]).1 := by
    intro e he
    apply hnf e
    · rw [ht]
      exact List.mem_cons_of_mem _ (List.mem_append_left _ he)
    · exact isDestroy_isAPICall (hPd e he)
  obtain ⟨hrest, herr⟩ := hnone (prunePhase_noFail_none _ _ _ _ _ hPnf)
  obtain ⟨tS, tL, hA, hS, hL, hlk, hbad⟩ := afterPrune_phases w d cfg
    (existingManaged cfg.SyncID remote) (⟨.ListTypes, .catalogTypes remote⟩ ::
      (prunePhase w opt cfg (existingManaged cfg.SyncID remote)
        [⟨.ListTypes, .catalogTypes remote⟩]).1)
  refine ⟨_, tS, tL, ?_, hPd, hS, hL, hlk, ?_⟩
  · rw [ht, hrest, hA]
  · intro ex2 e h1 h2
    rw [herr]
    exact hbad ex2 e h1 h2

/-- C2 (as amended): when `ListTypes` succeeds, no call of the catalog API
fails and every `CreateType` reply carries the requested type name, the create
requests are, in configuration order, one for the first occurrence of each
type name among the configured outputs that match no managed remote type; each
carries its output's name, description and type name and annotations whose
sync-id is the configured one; and no two of them share a type name. -/
theorem Run_creates_missing_outputs (w : World) (d : Deps) (opt : SyncOptions)
    (cfg : Config) (remote : List CatalogTypeV2) (hlist : w.listTypes [] = .ok remote)
    (hnf : NoAPIFailure (Run w d opt cfg).trace)
    (hecho : EchoesTypeName (Run w d opt cfg).trace) :
    List.Forall₂ (CarriesOutput cfg.SyncID) (firstPerTypeName (unmanagedOutputs cfg remote))
      (createdBodies (Run w d opt cfg).trace) ∧
    (firstPerTypeName (unmanagedOutputs cfg remote)).Sublist cfg.Outputs ∧
    ((createdBodies (Run w d opt cfg).trace).map CreateTypeRequestBody.TypeName).Nodup := by
  obtain ⟨tP, tS, tL, ht, hP, hS, hL, -, -⟩ :=
    Run_trace_of_noAPIFailure w d opt cfg remote hlist hnf
  have hsub : ∀ e ∈ (createLoop w d cfg.SyncID cfg.Outputs
      (existingManaged cfg.SyncID remote) (⟨.ListTypes, .catalogTypes remote⟩ :: tP)).1,
      e ∈ (Run w d opt cfg).trace := by
    intro e he
    rw [ht]
    simp [he]
  have hbodies : createdBodies (Run w d opt cfg).trace
      = createdBodies (createLoop w d cfg.SyncID cfg.Outputs
          (existingManaged cfg.SyncID remote) (⟨.ListTypes, .catalogTypes remote⟩ :: tP)).1 := by
    rw [ht]
    have h0 : ∀ t : Trace, createdBodies (⟨.ListTypes, .catalogTypes remote⟩ :: t)
        = createdBodies t := by
      intro t
      simp [createdBodies]
    rw [h0, createdBodies_append, createdBodies_append, createdBodies_append,
      createdBodies_eq_nil tP (fun e he => isDestroy_not_isCreate (hP e he)),
      createdBodies_eq_nil tS (fun e he => isUpdate_not_isCreate (hS e he)),
      createdBodies_eq_nil tL (fun e he => isPipelineCall_not_isCreate (hL e he))]
    simp
  obtain ⟨ex2, -, -, -, hf⟩ := createLoop_spec w d cfg.SyncID cfg.Outputs
    (existingManaged cfg.SyncID remote) (⟨.ListTypes, .catalogTypes remote⟩ :: tP)
    (fun e he => hnf e (hsub e he)
      (isCreate_isAPICall (createLoop_isCreate _ _ _ _ _ _ e he)))
    (fun e he => hecho e (hsub e he))
  rw [← unmanagedOutputs_eq, ← hbodies] at hf
  refine ⟨hf, (firstPerTypeName_sublist _).trans (List.filter_sublist _), ?_⟩
  rw [Forall₂_carries_typeNames _ hf]
  have := firstPerTypeName_nodup (unmanagedOutputs cfg remote)
  rw [show (firstPerTypeName (unmanagedOutputs cfg remote)).map (fun o => some o.TypeName)
    = ((firstPerTypeName (unmanagedOutputs cfg remote)).map Output.TypeName).map some by
      simp]
  exact this.map (Option.some_injective _)

/-- C2, witness: with `T1` managed remotely and `A`, `B` configured, a server
that never fails receives one create for `A` and then one for `B`. -/
theorem Run_creates_missing_outputs_witness :
    (createdBodies (Run (okWorld s6Remote) plainDeps ⟨false⟩ abConfig).trace).map
        CreateTypeRequestBody.TypeName = [some "A", some "B"] ∧
    List.Forall₂ (CarriesOutput abConfig.SyncID)
      (firstPerTypeName (unmanagedOutputs abConfig s6Remote))
      (createdBodies (Run (okWorld s6Remote) plainDeps ⟨false⟩ abConfig).trace) :=
  ⟨by decide,
    (Run_creates_missing_outputs (okWorld s6Remote) plainDeps ⟨false⟩ abConfig s6Remote rfl
      (by unfold NoAPIFailure; decide) (by unfold EchoesTypeName; decide)).1⟩

/-- C2, counterexample: the output `A` is declared twice and the server answers
the first create with a type named `X`; no API call fails and `CreateType` is
issued twice for the type name `A`. -/
theorem Run_creates_twice_when_reply_is_renamed :
    NoAPIFailure (Run (renamingWorld []) plainDeps ⟨false⟩ aaConfig).trace ∧
    (createdBodies (Run (renamingWorld []) plainDeps ⟨false⟩ aaConfig).trace).map
        CreateTypeRequestBody.TypeName = [some "A", some "A"] := by
  constructor
  · unfold NoAPIFailure
    decide
  · decide

/-! ## C10: the schema-sync phase -/

theorem createLoop_types (w : World) (d : Deps) (sid : String) (outs : List Output)
    (existing : List CatalogTypeV2) (hist : Trace) (ex2 : List CatalogTypeV2)
    (h : (createLoop w d sid outs existing hist).2 = .ok ex2) :
    ex2 = existing ++ createdTypes (createLoop w d sid outs existing hist).1 := by
  induction outs generalizing existing hist with
  | nil =>
    simp only [createLoop, Except.ok.injEq] at h
    simp [createLoop, createdTypes, h]
  | cons o rest ih =>
    simp only [createLoop] at h ⊢
    split at h
    · rename_i hc
      simp only [hc, if_true]
      exact ih _ _ h
    · rename_i hc
      simp only [hc]
      simp only [Bool.false_eq_true, if_false]
      cases hcr : w.createType hist (createBody d.Version (w.now hist) sid (MarshalType o)) with
      | error e => simp [hcr] at h
      | ok ct =>
        rw [hcr] at h
        simp only [] at h ⊢
        rw [ih _ _ h]
        simp [createdTypes]

theorem lookup_filter_ne (m : List (String × CatalogTypeV2)) (k k2 : String) (h : k2 ≠ k) :
    (m.filter (fun kv => kv.1 != k)).lookup k2 = m.lookup k2 := by
  induction m with
  | nil => rfl
  | cons kv rest ih =>
    rcases kv with ⟨a, b⟩
    by_cases ha : a = k
    · subst ha
      have : (k2 == a) = false := by simpa using h
      simp [List.filter_cons, List.lookup, this, ih]
    · by_cases h2 : k2 = a
      · subst h2
        simp [List.filter_cons, List.lookup, ha]
      · have : (k2 == a) = false := by simpa using h2
        simp [List.filter_cons, List.lookup, ha, this, ih]

theorem lookup_mapSet (m : List (String × CatalogTypeV2)) (k k2 : String) (v : CatalogTypeV2) :
    (mapSet m k v).lookup k2 = if k2 = k then some v else m.lookup k2 := by
  by_cases h : k2 = k
  · subst h
    simp [mapSet, List.lookup]
  · have : (k2 == k) = false := by simpa using h
    simp [mapSet, List.lookup, this, h, lookup_filter_ne m k k2 h]

theorem buildLookup_lookup (ex2 : List CatalogTypeV2) (outs : List Output)
    (m lk : List (String × CatalogTypeV2)) (h : buildLookup ex2 outs m = .ok lk) (tn : String) :
    lk.lookup tn
      = if tn ∈ outs.map Output.TypeName then ex2.find? (fun ct => tn == ct.TypeName)
        else m.lookup tn := by
  induction outs generalizing m with
  | nil =>
    simp only [buildLookup, Except.ok.injEq] at h
    simp [h]
  | cons o rest ih =>
    simp only [buildLookup] at h
    cases hf : ex2.find? (fun ct => o.TypeName == ct.TypeName) with
    | none => simp [hf] at h
    | some ct =>
      rw [hf] at h
      simp only [] at h
      rw [ih _ h, lookup_mapSet]
      by_cases h1 : tn ∈ rest.map Output.TypeName
      · simp [h1]
      · by_cases h2 : tn = o.TypeName
        · subst h2
          simp [h1, hf]
        · have : ¬ (tn = o.TypeName ∨ ∃ a ∈ rest, a.TypeName = tn) := by
            rintro (h3 | ⟨a, ha, rfl⟩)
            · exact h2 h3
            · exact h1 (List.mem_map.2 ⟨a, ha, rfl⟩)
          simp [h1, h2, this]

theorem buildLookup_ok (ex2 : List CatalogTypeV2) (outs : List Output)
    (m : List (String × CatalogTypeV2))
    (h : ∀ o ∈ outs, o.TypeName ∈ ex2.map CatalogTypeV2.TypeName) :
    ∃ lk, buildLookup ex2 outs m = .ok lk := by
  induction outs generalizing m with
  | nil => exact ⟨m, rfl⟩
  | cons o rest ih =>
    simp only [buildLookup]
    cases hf : ex2.find? (fun ct => o.TypeName == ct.TypeName) with
    | none =>
      exfalso
      obtain ⟨ct, hct, heq⟩ := List.mem_map.1 (h o (List.mem_cons_self _ _))
      have := List.find?_eq_none.1 hf ct hct
      simp [heq] at this
    | some ct => exact ih _ (fun p hp => h p (List.mem_cons_of_mem _ hp))

theorem syncLoop_spec (w : World) (lk : List (String × CatalogTypeV2))
    (known : List CatalogTypeV2) (outs : List Output) (hist : Trace)
    (hlk : ∀ o ∈ outs, ∃ ct ∈ known, ct.TypeName = o.TypeName ∧
      lk.lookup o.TypeName = some ct)
    (hnf : NoFail (syncLoop w lk outs hist).1) :
    SyncPairs known outs (syncLoop w lk outs hist).1 := by
  induction outs generalizing hist with
  | nil => simp [syncLoop, SyncPairs]
  | cons o rest ih =>
    obtain ⟨ct, hct, htn, hl⟩ := hlk o (List.mem_cons_self _ _)
    simp only [syncLoop, hl] at hnf ⊢
    cases hu : w.updateType hist ct.Id (updateBody (MarshalType o)) with
    | error e =>
      rw [hu] at hnf
      have := hnf _ (List.mem_singleton.2 rfl)
      simp [Event.failed] at this
    | ok res =>
      rw [hu] at hnf
      simp only [] at hnf ⊢
      cases hs : w.updateTypeSchema
          (hist ++ [⟨.UpdateType ct.Id (updateBody (MarshalType o)), .catalogType res⟩])
          ct.Id ⟨res.SchemaVersion, (MarshalType o).Attributes⟩ with
      | error e =>
        rw [hs] at hnf
        have := hnf ⟨.UpdateTypeSchema ct.Id
          ⟨res.SchemaVersion, (MarshalType o).Attributes⟩, .failed e⟩ (by simp)
        simp [Event.failed] at this
      | ok u =>
        rw [hs] at hnf
        simp only [] at hnf ⊢
        refine ⟨⟨ct, res, hct, htn, rfl, rfl⟩, ih _ ?_ ?_⟩
        · exact fun p hp => hlk p (List.mem_cons_of_mem _ hp)
        · exact fun e he => hnf e (List.mem_cons_of_mem _ (List.mem_cons_of_mem _ he))

theorem createdTypes_mono {t1 t2 : Trace} (h : ∀ e ∈ t1, e ∈ t2) :
    ∀ ct ∈ createdTypes t1, ct ∈ createdTypes t2 := by
  intro ct hct
  obtain ⟨e, he, hm⟩ := List.mem_filterMap.1 hct
  exact List.mem_filterMap.2 ⟨e, h e he, hm⟩

theorem isDestroy_not_later {e : Event} (h : e.isDestroy = true) :
    e.isUpdate = false ∧ e.isPipelineCall = false := by
  rcases e with ⟨c, r⟩
  cases c <;> simp_all [Event.isDestroy, Event.isUpdate, Event.isPipelineCall]

theorem isCreate_not_later {e : Event} (h : e.isCreate = true) :
    e.isUpdate = false ∧ e.isPipelineCall = false := by
  rcases e with ⟨c, r⟩
  cases c <;> simp_all [Event.isCreate, Event.isUpdate, Event.isPipelineCall]

theorem isUpdate_not_isPipelineCall {e : Event} (h : e.isUpdate = true) :
    e.isPipelineCall = false := by
  rcases e with ⟨c, r⟩
  cases c <;> simp_all [Event.isUpdate, Event.isPipelineCall]

/-- C10 (as amended): when `ListTypes` succeeds, no call of the catalog API
fails and every `CreateType` reply carries the requested type name, the trace
of `Run` splits into three parts: calls that are neither updates nor pipeline
calls; then, for every configured output in configuration order, one
`UpdateType` on the id of a managed or just-created type with the output's
type name, carrying the output's name, description and type name, immediately
followed by one `UpdateTypeSchema` on the same id with the schema version of
that `UpdateType` reply and the output's attributes; then nothing but source
loads and entry reconciliations. -/
theorem Run_schema_sync (w : World) (d : Deps) (opt : SyncOptions)
    (cfg : Config) (remote : List CatalogTypeV2) (hlist : w.listTypes [] = .ok remote)
    (hnf : NoAPIFailure (Run w d opt cfg).trace)
    (hecho : EchoesTypeName (Run w d opt cfg).trace) :
    ∃ tT tS tL : Trace,
      (Run w d opt cfg).trace = tT ++ tS ++ tL ∧
      (∀ e ∈ tT, e.isUpdate = false ∧ e.isPipelineCall = false) ∧
      SyncPairs (existingManaged cfg.SyncID remote ++ createdTypes (Run w d opt cfg).trace)
        cfg.Outputs tS ∧
      (∀ e ∈ tL, e.isPipelineCall = true) := by
  obtain ⟨tP, tS, tL, ht, hP, hS, hL, hlk, -⟩ :=
    Run_trace_of_noAPIFailure w d opt cfg remote hlist hnf
  have hsub : ∀ e ∈ (createLoop w d cfg.SyncID cfg.Outputs
      (existingManaged cfg.SyncID remote) (⟨.ListTypes, .catalogTypes remote⟩ :: tP)).1,
      e ∈ (Run w d opt cfg).trace := by
    intro e he
    rw [ht]
    simp [he]
  obtain ⟨ex2, hok, -, hall, -⟩ := createLoop_spec w d cfg.SyncID cfg.Outputs
    (existingManaged cfg.SyncID remote) (⟨.ListTypes, .catalogTypes remote⟩ :: tP)
    (fun e he => hnf e (hsub e he)
      (isCreate_isAPICall (createLoop_isCreate _ _ _ _ _ _ e he)))
    (fun e he => hecho e (hsub e he))
  obtain ⟨lk, hb⟩ := buildLookup_ok ex2 cfg.Outputs [] hall
  have htS := hlk ex2 lk hok hb
  have hex2 := createLoop_types _ _ _ _ _ _ _ hok
  have hknown : ∀ o ∈ cfg.Outputs, ∃ ct ∈ existingManaged cfg.SyncID remote
      ++ createdTypes (Run w d opt cfg).trace,
      ct.TypeName = o.TypeName ∧ lk.lookup o.TypeName = some ct := by
    intro o ho
    have hmem : o.TypeName ∈ cfg.Outputs.map Output.TypeName := List.mem_map.2 ⟨o, ho, rfl⟩
    have hlook := buildLookup_lookup ex2 cfg.Outputs [] lk hb o.TypeName
    rw [if_pos hmem] at hlook
    obtain ⟨c0, hc0, hc0n⟩ := List.mem_map.1 (hall o ho)
    cases hf : ex2.find? (fun ct => o.TypeName == ct.TypeName) with
    | none =>
      have := List.find?_eq_none.1 hf c0 hc0
      simp [hc0n] at this
    | some ct =>
      have h1 : o.TypeName = ct.TypeName := by simpa using List.find?_some hf
      have h2 := List.mem_of_find?_eq_some hf
      refine ⟨ct, ?_, h1.symm, by rw [hlook, hf]⟩
      rw [hex2] at h2
      rcases List.mem_append.1 h2 with h2 | h2
      · exact List.mem_append_left _ h2
      · exact List.mem_append_right _ (createdTypes_mono hsub ct h2)
  have hSnf : NoFail tS := by
    intro e he
    apply hnf e
    · rw [ht]
      simp [he]
    · exact isUpdate_isAPICall (hS e he)
  refine ⟨⟨.ListTypes, .catalogTypes remote⟩ :: (tP ++ (createLoop w d cfg.SyncID cfg.Outputs
      (existingManaged cfg.SyncID remote) (⟨.ListTypes, .catalogTypes remote⟩ :: tP)).1),
    tS, tL, ?_, ?_, ?_, hL⟩
  · rw [ht]
    simp
  · intro e he
    rcases List.mem_cons.1 he with rfl | he
    · exact ⟨rfl, rfl⟩
    rcases List.mem_append.1 he with he | he
    · exact isDestroy_not_later (hP e he)
    · exact isCreate_not_later (createLoop_isCreate _ _ _ _ _ _ e he)
  · rw [htS] at hSnf ⊢
    exact syncLoop_spec w lk _ cfg.Outputs _ hknown hSnf

/-- C10, witness: `A` and `B` are created and then synced in order, each by an
`UpdateType` and an `UpdateTypeSchema`, before the source is loaded. -/
theorem Run_schema_sync_witness :
    ((Run (okWorld s6Remote) plainDeps ⟨false⟩ abConfig).trace.map
        (fun e => (e.isCreate, e.isUpdate, e.isPipelineCall))
      = [(false, false, false), (true, false, false), (true, false, false),
         (false, true, false), (false, true, false), (false, true, false),
         (false, true, false), (false, false, true), (false, false, true),
         (false, false, true)]) ∧
    ∃ tT tS tL : Trace,
      (Run (okWorld s6Remote) plainDeps ⟨false⟩ abConfig).trace = tT ++ tS ++ tL ∧
      (∀ e ∈ tT, e.isUpdate = false ∧ e.isPipelineCall = false) ∧
      SyncPairs (existingManaged abConfig.SyncID s6Remote
          ++ createdTypes (Run (okWorld s6Remote) plainDeps ⟨false⟩ abConfig).trace)
        abConfig.Outputs tS ∧
      (∀ e ∈ tL, e.isPipelineCall = true) :=
  ⟨by decide,
    Run_schema_sync (okWorld s6Remote) plainDeps ⟨false⟩ abConfig s6Remote rfl
      (by unfold NoAPIFailure; decide) (by unfold EchoesTypeName; decide)⟩

/-- C10, counterexample: `T1` is configured, nothing is managed remotely and
the create of `T1` is answered with a type named `X`. No API call fails, yet
the lookup finds no type for `T1`, `Run` returns its error and not one
`UpdateType` or `UpdateTypeSchema` is issued. -/
theorem Run_no_schema_sync_when_reply_is_renamed :
    NoAPIFailure (Run (renamingWorld []) plainDeps ⟨false⟩ s6Config).trace ∧
    (Run (renamingWorld []) plainDeps ⟨false⟩ s6Config).trace.filter Event.isUpdate = [] ∧
    (Run (renamingWorld []) plainDeps ⟨false⟩ s6Config).err
      = some "could not find catalog type for model 'T1', this is a bug in the importer" := by
  refine ⟨?_, ?_, ?_⟩
  · unfold NoAPIFailure
    decide
  · decide
  · decide

/-! ## C9: a failed type-reconciliation call -/

/-- The pipeline calls of a run all come after every other call. -/
theorem Run_trace_kinds (w : World) (d : Deps) (opt : SyncOptions) (cfg : Config) :
    ∃ tT tL : Trace, (Run w d opt cfg).trace = tT ++ tL ∧
      (∀ e ∈ tT, e.isPipelineCall = false) ∧ (∀ e ∈ tL, e.isPipelineCall = true) := by
  cases hlist : w.listTypes [] with
  | error e =>
    refine ⟨(Run w d opt cfg).trace, [], by simp, ?_, by simp⟩
    simp [Run, hlist, Event.isPipelineCall]
  | ok remote =>
    obtain ⟨rest, ht, -, hnone, hsome⟩ := Run_trace_eq w d opt cfg remote hlist
    have hPd := prunePhase_isDestroy w opt cfg (existingManaged cfg.SyncID remote)
      [⟨.ListTypes, .catalogTypes remote⟩]
    cases hp : (prunePhase w opt cfg (existingManaged cfg.SyncID remote)
        [⟨.ListTypes, .catalogTypes remote⟩]).2 with
    | some e =>
      obtain ⟨hrest, -⟩ := hsome e hp
      refine ⟨(Run w d opt cfg).trace, [], by simp, ?_, by simp⟩
      rw [ht, hrest]
      intro x hx
      rcases List.mem_cons.1 hx with rfl | hx
      · rfl
      · rw [List.append_nil] at hx
        exact (isDestroy_not_later (hPd x hx)).2
    | none =>
      obtain ⟨hrest, -⟩ := hnone hp
      obtain ⟨tS, tL, hA, hS, hL, -, -⟩ := afterPrune_phases w d cfg
        (existingManaged cfg.SyncID remote) (⟨.ListTypes, .catalogTypes remote⟩ ::
          (prunePhase w opt cfg (existingManaged cfg.SyncID remote)
            [⟨.ListTypes, .catalogTypes remote⟩]).1)
      refine ⟨⟨.ListTypes, .catalogTypes remote⟩ ::
        ((prunePhase w opt cfg (existingManaged cfg.SyncID remote)
          [⟨.ListTypes, .catalogTypes remote⟩]).1 ++
          (createLoop w d cfg.SyncID cfg.Outputs (existingManaged cfg.SyncID remote)
            (⟨.ListTypes, .catalogTypes remote⟩ ::
              (prunePhase w opt cfg (existingManaged cfg.SyncID remote)
                [⟨.ListTypes, .catalogTypes remote⟩]).1)).1 ++ tS), tL, ?_, ?_, hL⟩
      · rw [ht, hrest, hA]
        simp
      · intro x hx
        rcases List.mem_cons.1 hx with rfl | hx
        · rfl
        simp only [List.mem_append] at hx
        rcases hx with (hx | hx) | hx
        · exact (isDestroy_not_later (hPd x hx)).2
        · exact (isCreate_not_later (createLoop_isCreate _ _ _ _ _ _ x hx)).2
        · exact isUpdate_not_isPipelineCall (hS x hx)

theorem isTypeCall_not_isPipelineCall {e : Event} (h : e.isTypeCall = true) :
    e.isPipelineCall = false := by
  rcases e with ⟨c, r⟩
  cases c <;> simp_all [Event.isTypeCall, Event.isPipelineCall]

/-- C9 (as amended): when a type-reconciliation call (`DestroyType`,
`CreateType`, `UpdateType` or `UpdateTypeSchema`) fails, it is the last call
of the run and `Run` returns an error: no type reconciliation follows for any
other output, and no source is loaded and no entry reconciliation is run for
any configured output. -/
theorem Run_returns_at_failed_type_call (w : World) (d : Deps) (opt : SyncOptions)
    (cfg : Config) (pre post : Trace) (e : Event)
    (ht : (Run w d opt cfg).trace = pre ++ e :: post)
    (hcall : e.isTypeCall = true) (hfail : e.failed = true) :
    post = [] ∧ (Run w d opt cfg).err ≠ none ∧
      ∀ x ∈ (Run w d opt cfg).trace, x.isPipelineCall = false := by
  obtain ⟨hpost, herr⟩ := StopsAtFailure_last (Run_stops w d opt cfg) ht hfail
  refine ⟨hpost, herr, ?_⟩
  obtain ⟨tT, tL, hk, hT, hL⟩ := Run_trace_kinds w d opt cfg
  have hnil : tL = [] := by
    by_contra hne
    have hlast : (tT ++ tL).getLast? = some e := by
      rw [← hk, ht, hpost]
      simp
    rw [List.getLast?_append_of_ne_nil _ hne] at hlast
    have hmem : e ∈ tL := List.mem_of_getLast?_eq_some hlast
    have := hL e hmem
    rw [isTypeCall_not_isPipelineCall hcall] at this
    exact Bool.false_ne_true this
  rw [hk, hnil, List.append_nil]
  exact hT

/-- C9, witness: `UpdateType` fails for `A`; it is the last call of the run. -/
theorem Run_returns_at_failed_type_call_witness :
    (Run (failingUpdateWorld []) plainDeps ⟨false⟩ abConfig).err
      = some "updating catalog type: 422 Unprocessable Entity" ∧
    ((Run (failingUpdateWorld []) plainDeps ⟨false⟩ abConfig).err ≠ none ∧
      ∀ x ∈ (Run (failingUpdateWorld []) plainDeps ⟨false⟩ abConfig).trace,
        x.isPipelineCall = false) :=
  ⟨by decide,
    (Run_returns_at_failed_type_call (failingUpdateWorld []) plainDeps ⟨false⟩ abConfig
      (Run (failingUpdateWorld []) plainDeps ⟨false⟩ abConfig).trace.dropLast []
      ⟨.UpdateType "new-A" (updateBody (MarshalType (outputOf "A"))),
        .failed "422 Unprocessable Entity"⟩
      (by decide) (by decide) (by decide)).2⟩

/-- C9, counterexample: `A` and `B` are configured and only the `UpdateType`
of `A` fails. `Run` returns that error; `B` gets no `UpdateType`, no
`UpdateTypeSchema` and no entry reconciliation, although on a server without
that failure the same run reconciles the entries of both. -/
theorem Run_skips_other_outputs_after_failure :
    (Run (failingUpdateWorld []) plainDeps ⟨false⟩ abConfig).err
      = some "updating catalog type: 422 Unprocessable Entity" ∧
    ((Run (failingUpdateWorld []) plainDeps ⟨false⟩ abConfig).trace.filter
        (fun e => e.isUpdate || e.isPipelineCall)).map Event.call
      = [.UpdateType "new-A" (updateBody (MarshalType (outputOf "A")))] ∧
    ((Run (okWorld []) plainDeps ⟨false⟩ abConfig).trace.filter
        Event.isPipelineCall).map Event.call
      = [.SourceLoad ⟨"src"⟩,
         .ReconcileEntries
           (some ⟨"new-A", "A", "the A", "A", getAnnotations "v1" "2024-01-01T00:00:00Z" "sync",
             1⟩) [],
         .ReconcileEntries
           (some ⟨"new-B", "B", "the B", "B", getAnnotations "v1" "2024-01-01T00:00:00Z" "sync",
             1⟩) []] := by
  refine ⟨?_, ?_, ?_⟩ <;> decide

/-! ## The loop of `Load` -/

theorem loop_requests (lib : Lib) (server : Server) (s : SourceBackstage) (token : String)
    (fuel : Nat) (offset : Int) (sent : List Request) (entries : List SourceEntry) :
    ∃ more, (s.loop lib server token fuel offset sent entries).requests = sent ++ more ∧
      ∀ r ∈ more, r.Authorization = authorization token ∧
        ∃ u off, lib.parseURL s.Endpoint = .ok u ∧
          r.URL = { u with Query := s.query off u.Query } := by
  induction fuel generalizing offset sent entries with
  | zero => exact ⟨[], by simp [SourceBackstage.loop], by simp⟩
  | succ fuel ih =>
    rw [SourceBackstage.loop]
    cases hurl : lib.parseURL s.Endpoint with
    | error e => exact ⟨[], by simp, by simp⟩
    | ok u =>
      simp only []
      cases hnew : lib.newRequest { u with Query := s.query offset u.Query } with
      | error e => exact ⟨[], by simp, by simp⟩
      | ok x =>
        simp only []
        have hone : ∀ r ∈ [(⟨{ u with Query := s.query offset u.Query },
            authorization token⟩ : Request)],
            r.Authorization = authorization token ∧
            ∃ u2 off, (Except.ok u : Except String ParsedURL) = Except.ok u2 ∧
              r.URL = { u2 with Query := s.query off u2.Query } := by
          intro r hr
          rw [List.mem_singleton] at hr
          subst hr
          exact ⟨rfl, u, offset, rfl, rfl⟩
        cases hsrv : server (sent ++ [⟨{ u with Query := s.query offset u.Query },
            authorization token⟩]) with
        | error e => exact ⟨_, rfl, hone⟩
        | ok resp =>
          simp only []
          split
          · exact ⟨_, rfl, hone⟩
          · cases hbody : resp.Body with
            | malformed e => exact ⟨_, rfl, hone⟩
            | page page =>
              simp only []
              split
              · exact ⟨_, rfl, hone⟩
              · obtain ⟨more, hm, hall⟩ := ih (wrapInt64 (offset + page.length))
                  (sent ++ [⟨{ u with Query := s.query offset u.Query },
                    authorization token⟩])
                  (entries ++ page.map (fun content => ⟨s.OriginString, content⟩))
                refine ⟨(⟨{ u with Query := s.query offset u.Query }, authorization token⟩ : Request)
                  :: more, ?_, ?_⟩
                · rw [hm]
                  simp
                · intro r hr
                  rcases List.mem_cons.1 hr with rfl | hr
                  · exact ⟨rfl, u, offset, hurl ▸ rfl, rfl⟩
                  · have := hall r hr
                    rw [hurl] at this
                    exact this



theorem loop_serves (lib : Lib) (server : Server) (s : SourceBackstage) (token : String)
    (u : ParsedURL) (hurl : lib.parseURL s.Endpoint = .ok u)
    (hreq : ∀ v, lib.newRequest v = .ok ()) (pre post : List (List String))
    (hpre : ∀ p ∈ pre, p ≠ []) (seen : List (List String)) (fuel : Nat) (offset : Int)
    (sent : List Request) (entries : List SourceEntry)
    (hserve : Serves server (seen ++ (pre ++ [] :: post)))
    (hlen : sent.length = seen.length) (hfuel : pre.length < fuel) :
    (s.loop lib server token fuel offset sent entries).outcome
      = .returned (some (entries ++ pre.flatten.map (fun c => ⟨s.OriginString, c⟩))) none ∧
    (s.loop lib server token fuel offset sent entries).requests.length
      = sent.length + pre.length + 1 := by
  induction pre generalizing seen fuel offset sent entries with
  | nil =>
    obtain ⟨fuel, rfl⟩ : ∃ f, fuel = f + 1 := ⟨fuel - 1, by simp at hfuel; omega⟩
    obtain ⟨status, hs⟩ := hserve sent
      ⟨{ u with Query := s.query offset u.Query }, authorization token⟩ []
      (by rw [hlen, List.get?_eq_getElem?, List.getElem?_append_right (le_refl _)]; simp)
    simp [SourceBackstage.loop, hurl, hreq, hs]
  | cons p pre ih =>
    obtain ⟨fuel, rfl⟩ : ∃ f, fuel = f + 1 := ⟨fuel - 1, by simp at hfuel; omega⟩
    have hp : p ≠ [] := hpre p (List.mem_cons_self _ _)
    obtain ⟨status, hs⟩ := hserve sent
      ⟨{ u with Query := s.query offset u.Query }, authorization token⟩ p
      (by rw [hlen, List.get?_eq_getElem?, List.getElem?_append_right (le_refl _)]; simp)
    have hrec := ih (fun q hq => hpre q (List.mem_cons_of_mem _ hq)) (seen ++ [p]) fuel
      (wrapInt64 (offset + p.length))
      (sent ++ [⟨{ u with Query := s.query offset u.Query }, authorization token⟩])
      (entries ++ p.map (fun c => ⟨s.OriginString, c⟩))
      (by simpa using hserve) (by simp [hlen]) (by simp at hfuel; omega)
    rw [SourceBackstage.loop]
    simp only [hurl, hreq, hs]
    have hne : (p.length == 0) = false := by
      cases p with
      | nil => exact absurd rfl hp
      | cons a l => simp
    simp only [bne_self_eq_false, Bool.false_eq_true, if_false, hne]
    rw [hrec.1, hrec.2]
    simp
    omega

theorem loop_constant (lib : Lib) (server : Server) (s : SourceBackstage) (token : String)
    (u : ParsedURL) (hurl : lib.parseURL s.Endpoint = .ok u)
    (hreq : ∀ v, lib.newRequest v = .ok ()) (status : String) (page : List String)
    (hpage : page ≠ []) (hserver : ∀ sent, server sent = .ok ⟨200, status, .page page⟩)
    (fuel : Nat) (offset : Int) (sent : List Request) (entries : List SourceEntry) :
    (s.loop lib server token fuel offset sent entries).outcome = .running ∧
    (s.loop lib server token fuel offset sent entries).requests.length
      = sent.length + fuel := by
  induction fuel generalizing offset sent entries with
  | zero => simp [SourceBackstage.loop]
  | succ fuel ih =>
    have hne : (page.length == 0) = false := by
      cases page with
      | nil => exact absurd rfl hpage
      | cons a l => simp
    rw [SourceBackstage.loop]
    simp only [hurl, hreq, hserver, bne_self_eq_false, Bool.false_eq_true, if_false, hne]
    obtain ⟨h1, h2⟩ := ih (wrapInt64 (offset + page.length))
      (sent ++ [⟨{ u with Query := s.query offset u.Query }, authorization token⟩])
      (entries ++ page.map (fun c => ⟨s.OriginString, c⟩))
    rw [h1, h2]
    simp
    omega

theorem split_after {α : Type} {a pre post more : List α} {x r : α}
    (h : a ++ x :: more = pre ++ r :: post) (hl : a.length = pre.length) :
    pre = a ∧ r = x ∧ post = more := by
  obtain ⟨h1, h2⟩ := List.append_inj h hl
  simp only [List.cons.injEq] at h2
  exact ⟨h1.symm, h2.1.symm, h2.2.symm⟩

theorem loop_not_ok (lib : Lib) (server : Server) (s : SourceBackstage) (token : String)
    (fuel : Nat) (offset : Int) (sent : List Request) (entries : List SourceEntry)
    (pre post : List Request) (r : Request) (resp : Response)
    (hreqs : (s.loop lib server token fuel offset sent entries).requests = pre ++ r :: post)
    (hnew : sent.length ≤ pre.length)
    (hresp : server (pre ++ [r]) = .ok resp) (hcode : resp.StatusCode ≠ 200) :
    post = [] ∧
    (s.loop lib server token fuel offset sent entries).outcome
      = .returned none (some ("fetching Backstage entries: "
          ++ ("received error from Backstage: " ++ resp.Status))) := by
  induction fuel generalizing offset sent entries with
  | zero =>
    simp only [SourceBackstage.loop] at hreqs
    have := congrArg List.length hreqs
    simp at this
    omega
  | succ fuel ih =>
    rw [SourceBackstage.loop] at hreqs ⊢
    have hshort : sent ≠ pre ++ r :: post := by
      intro h
      have := congrArg List.length h
      simp at this
      omega
    cases hurl : lib.parseURL s.Endpoint with
    | error e =>
      rw [hurl] at hreqs
      exact absurd hreqs hshort
    | ok u =>
      rw [hurl] at hreqs
      simp only [] at hreqs ⊢
      cases hnr : lib.newRequest { u with Query := s.query offset u.Query } with
      | error e =>
        rw [hnr] at hreqs
        exact absurd hreqs hshort
      | ok x =>
        rw [hnr] at hreqs
        simp only [] at hreqs ⊢
        have hlast : ∀ {q : Request}, sent ++ [q] = pre ++ r :: post →
            pre = sent ∧ r = q ∧ post = [] := by
          intro q h
          by_cases hl : sent.length = pre.length
          · exact split_after h hl
          · have := congrArg List.length h
            simp at this
            omega
        cases hsrv : server (sent ++ [⟨{ u with Query := s.query offset u.Query },
            authorization token⟩]) with
        | error e =>
          rw [hsrv] at hreqs
          obtain ⟨rfl, rfl, rfl⟩ := hlast hreqs
          rw [hsrv] at hresp
          exact absurd hresp (by simp)
        | ok resp2 =>
          rw [hsrv] at hreqs
          simp only [] at hreqs ⊢
          by_cases h200 : (resp2.StatusCode != 200) = true
          · simp only [h200, if_true] at hreqs ⊢
            obtain ⟨rfl, rfl, rfl⟩ := hlast hreqs
            rw [hsrv] at hresp
            simp only [Except.ok.injEq] at hresp
            subst hresp
            exact ⟨rfl, rfl⟩
          · simp only [h200] at hreqs ⊢
            simp only [Bool.false_eq_true, if_false] at hreqs ⊢
            have hcode2 : resp2.StatusCode = 200 := by simpa using h200
            have hfirst : ∀ (q : Request) (more : List Request),
                sent ++ q :: more = pre ++ r :: post → sent.length = pre.length →
                q = ⟨{ u with Query := s.query offset u.Query }, authorization token⟩ →
                False := by
              intro q more h hl hq
              obtain ⟨rfl, rfl, -⟩ := split_after h hl
              rw [hq, hsrv] at hresp
              simp only [Except.ok.injEq] at hresp
              subst hresp
              exact hcode hcode2
            cases hbody : resp2.Body with
            | malformed e =>
              rw [hbody] at hreqs
              simp only [] at hreqs
              by_cases hl : sent.length = pre.length
              · exact (hfirst _ [] hreqs hl rfl).elim
              · have := congrArg List.length hreqs
                simp at this
                omega
            | page page =>
              rw [hbody] at hreqs
              simp only [] at hreqs ⊢
              by_cases hempty : (page.length == 0) = true
              · simp only [hempty, if_true] at hreqs
                by_cases hl : sent.length = pre.length
                · exact (hfirst _ [] hreqs hl rfl).elim
                · have := congrArg List.length hreqs
                  simp at this
                  omega
              · simp only [hempty] at hreqs ⊢
                simp only [Bool.false_eq_true, if_false] at hreqs ⊢
                by_cases hl : sent.length = pre.length
                · obtain ⟨more, hm, -⟩ := loop_requests lib server s token fuel
                    (wrapInt64 (offset + page.length))
                    (sent ++ [⟨{ u with Query := s.query offset u.Query },
                      authorization token⟩])
                    (entries ++ page.map (fun content => ⟨s.OriginString, content⟩))
                  rw [hm, List.append_assoc, List.singleton_append] at hreqs
                  exact (hfirst _ _ hreqs hl rfl).elim
                · exact ih _ _ _ hreqs (by simp; omega)

/-! ## C3: pagination ends at the first empty page -/

theorem scripted_serves (pages : List (List String)) : Serves (scripted pages) pages := by
  intro sent r page h
  refine ⟨"200 OK", ?_⟩
  simp only [scripted, List.length_append, List.length_singleton, Nat.add_sub_cancel]
  rw [h]

/-- C3: when the bearer is obtained, the endpoint parses and requests can be
built, and the server answers with status 200 the non-empty pages `pre` and
then an empty page, `Load` (given more fuel than there are non-empty pages)
returns without error one entry per item of `pre`, in order, whose content is
the item and whose origin is the source's `String()`, and it has sent exactly
one request per page up to and including the empty one. -/
theorem Load_stops_at_first_empty_page (lib : Lib) (server : Server) (s : SourceBackstage)
    (token : String) (u : ParsedURL) (pre post : List (List String)) (fuel : Nat)
    (hbearer : s.bearerToken lib = .ok token) (hurl : lib.parseURL s.Endpoint = .ok u)
    (hreq : ∀ v, lib.newRequest v = .ok ()) (hserve : Serves server (pre ++ [] :: post))
    (hpre : ∀ p ∈ pre, p ≠ []) (hfuel : pre.length < fuel) :
    (s.Load lib server fuel).outcome
      = .returned (some (pre.flatten.map (fun c => ⟨s.OriginString, c⟩))) none ∧
    (s.Load lib server fuel).requests.length = pre.length + 1 := by
  have h := loop_serves lib server s token u hurl hreq pre post hpre [] fuel s.Offset [] []
    (by simpa using hserve) rfl hfuel
  simp only [SourceBackstage.Load, hbearer]
  simpa using h

/-- C3, witness (scenario S4): the pages `[A,B]`, `[C]`, `[]` give exactly the
three entries `A`, `B`, `C` after three requests. -/
theorem Load_stops_at_first_empty_page_witness :
    (unsignedTestSource.Load testLib (scripted [["A", "B"], ["C"], []]) 5).outcome
      = .returned (some [⟨unsignedTestSource.OriginString, "A"⟩,
          ⟨unsignedTestSource.OriginString, "B"⟩,
          ⟨unsignedTestSource.OriginString, "C"⟩]) none ∧
    (unsignedTestSource.Load testLib (scripted [["A", "B"], ["C"], []]) 5).requests.length
      = 3 :=
  Load_stops_at_first_empty_page testLib (scripted [["A", "B"], ["C"], []])
    unsignedTestSource "test-token"
    ⟨"http", "127.0.0.1:7007", "/api/catalog/entities/by-query", []⟩
    [["A", "B"], ["C"]] [] 5 rfl rfl (fun _ => rfl) (scripted_serves _) (by decide) (by decide)

/-! ## C4: the bearer -/

theorem Load_authorization (lib : Lib) (server : Server) (s : SourceBackstage) (fuel : Nat) :
    ∀ r ∈ (s.Load lib server fuel).requests,
      ∃ token, s.bearerToken lib = .ok token ∧ r.Authorization = authorization token := by
  intro r hr
  unfold SourceBackstage.Load at hr
  cases hb : s.bearerToken lib with
  | error e => simp [hb] at hr
  | ok token =>
    rw [hb] at hr
    obtain ⟨more, hm, hall⟩ := loop_requests lib server s token fuel s.Offset [] []
    rw [hm] at hr
    exact ⟨token, rfl, (hall r (by simpa using hr)).1⟩

/-- C4: the bearer depends on `Token` and `SignJWT` only. With an empty
`Token` no request carries an `Authorization` header. With a non-empty `Token`
and `SignJWT` nil or true, the bearer is the HS256 token signed with the
base64-decoded `Token` over exactly the claims `sub = "backstage-server"` and
`exp = now + 3600`, every request carries it after `Bearer `, and `Load` fails
without a request when `Token` is not base64. With a non-empty `Token` and
`SignJWT` false every request carries `Bearer ` followed by the raw `Token`. -/
theorem Load_bearer (lib : Lib) (server : Server) (s : SourceBackstage) (fuel : Nat) :
    (∀ s2 : SourceBackstage, s2.Token = s.Token → s2.SignJWT = s.SignJWT →
      s2.bearerToken lib = s.bearerToken lib) ∧
    (s.Token = "" → ∀ r ∈ (s.Load lib server fuel).requests, r.Authorization = none) ∧
    (s.Token ≠ "" → (s.SignJWT = none ∨ s.SignJWT = some true) →
      (∀ secret, lib.base64Decode s.Token = .ok secret →
        s.bearerToken lib
          = lib.signHS256 [("sub", .str "backstage-server"), ("exp", .num (lib.now + 3600))]
              secret ∧
        ∀ jwt, lib.signHS256 [("sub", .str "backstage-server"),
            ("exp", .num (lib.now + 3600))] secret = .ok jwt → jwt ≠ "" →
          ∀ r ∈ (s.Load lib server fuel).requests,
            r.Authorization = some ("Bearer " ++ jwt)) ∧
      (∀ e, lib.base64Decode s.Token = .error e →
        s.Load lib server fuel = ⟨[], .returned none
          (some ("supplied backstage token must be a base64 string: " ++ e))⟩)) ∧
    (s.Token ≠ "" → s.SignJWT = some false →
      ∀ r ∈ (s.Load lib server fuel).requests,
        r.Authorization = some ("Bearer " ++ s.Token)) := by
  refine ⟨?_, ?_, ?_, ?_⟩
  · intro s2 ht hs
    simp [SourceBackstage.bearerToken, SourceBackstage.getJWT, ht, hs]
  · intro ht r hr
    obtain ⟨token, hb, ha⟩ := Load_authorization lib server s fuel r hr
    simp only [SourceBackstage.bearerToken, ht, bne_self_eq_false, Bool.false_eq_true,
      if_false, Except.ok.injEq] at hb
    rw [ha, ← hb]
    rfl
  · intro ht hs
    have hb : s.bearerToken lib = s.getJWT lib := by
      have h1 : (s.Token != "") = true := by simpa using ht
      have h2 : (s.SignJWT == none || s.SignJWT == some true) = true := by
        rcases hs with hs | hs <;> simp [hs]
      simp only [SourceBackstage.bearerToken, h1, h2, if_true]
    refine ⟨?_, ?_⟩
    · intro secret hd
      have hj : s.bearerToken lib = lib.signHS256 [("sub", .str "backstage-server"),
          ("exp", .num (lib.now + 3600))] secret := by
        rw [hb]
        simp only [SourceBackstage.getJWT, hd, jwtClaims]
      refine ⟨hj, ?_⟩
      intro jwt hjwt hne r hr
      obtain ⟨token, hb2, ha⟩ := Load_authorization lib server s fuel r hr
      rw [hj, hjwt] at hb2
      simp only [Except.ok.injEq] at hb2
      subst hb2
      have : (jwt != "") = true := by simpa using hne
      simp only [ha, authorization, this, if_true]
    · intro e hd
      simp only [SourceBackstage.Load, hb, SourceBackstage.getJWT, hd]
  · intro ht hs r hr
    obtain ⟨token, hb, ha⟩ := Load_authorization lib server s fuel r hr
    have h1 : (s.Token != "") = true := by simpa using ht
    simp only [SourceBackstage.bearerToken, h1, hs, if_true] at hb
    have hc : ((some false : Option Bool) == none || (some false : Option Bool) == some true)
        = false := by decide
    rw [hc] at hb
    simp only [Bool.false_eq_true, if_false, Except.ok.injEq] at hb
    subst hb
    simp only [ha, authorization, h1, if_true]

/-- C4, witness: the three cases on the test source, over the test server. -/
theorem Load_bearer_witness :
    (∀ r ∈ ((({ testSource with Token := "" } : SourceBackstage)).Load testLib testServer
        2).requests, r.Authorization = none) ∧
    (∀ r ∈ (signedTestSource.Load testLib testServer 2).requests,
      r.Authorization = some ("Bearer " ++ "jwt.2.4")) ∧
    (∀ r ∈ (unsignedTestSource.Load testLib testServer 2).requests,
      r.Authorization = some ("Bearer " ++ "test-token")) :=
  ⟨(Load_bearer testLib testServer { testSource with Token := "" } 2).2.1 rfl,
    ((Load_bearer testLib testServer signedTestSource 2).2.2.1 (by decide)
      (Or.inl rfl)).1 [116, 101, 115, 116] rfl |>.2 "jwt.2.4" rfl (by decide),
    (Load_bearer testLib testServer unsignedTestSource 2).2.2.2 (by decide) rfl⟩

/-! ## C5, C6, C7: what the repository's test expects -/

/-- C5 (the code at the failing input): with the token `test-token` and
`SignJWT` nil, `Load` tries to sign; the token is not base64 (its byte 4 is
`-`), and `Load` returns the decoder's error, wrapped, without sending any
request, whatever the server. -/
theorem Load_test_token_unsigned_fails (server : Server) (fuel : Nat) :
    testSource.Load testLib server fuel
      = ⟨[], .returned none
          (some ("supplied backstage token must be a base64 string: "
            ++ "illegal base64 data at input byte 4"))⟩ := by
  have hb : testSource.bearerToken testLib
      = .error ("supplied backstage token must be a base64 string: "
          ++ "illegal base64 data at input byte 4") := by
    rfl
  simp only [SourceBackstage.Load, hb]

/-- C6 (the code at the failing input): with filters `kind=Component`, limit 10
and offset 0 the request goes to the endpoint path with `filter` and `limit`
set, but it has no `offset` parameter: `Get("offset")` is the empty string,
not `0`. -/
theorem Load_omits_zero_offset :
    (unsignedTestSource.Load testLib testServer 1).requests.map
        (fun r => (r.URL.Path, Values.Get r.URL.Query "filter",
          Values.Get r.URL.Query "limit", Values.Get r.URL.Query "offset",
          r.URL.Query.lookup "offset"))
      = [("/api/catalog/entities/by-query", "kind=Component", "10", "", none)] := by
  decide

/-- C7 (the code at the failing input): against the test server, which answers
every request with status 200 and the same two components, `Load` never
returns: whatever the fuel, it is still running and has sent one request per
unit of fuel. -/
theorem Load_never_returns_on_constant_page (fuel : Nat) :
    (unsignedTestSource.Load testLib testServer fuel).outcome = .running ∧
    (unsignedTestSource.Load testLib testServer fuel).requests.length = fuel := by
  have hb : unsignedTestSource.bearerToken testLib = .ok "test-token" := rfl
  have h := loop_constant testLib testServer unsignedTestSource "test-token"
    ⟨"http", "127.0.0.1:7007", "/api/catalog/entities/by-query", []⟩ rfl (fun _ => rfl)
    "200 OK" testPage (by decide) (fun _ => rfl) fuel unsignedTestSource.Offset [] []
  simp only [SourceBackstage.Load, hb]
  simpa using h

/-! ## C8: a response that is not a success -/

/-- C8: when the response to a request of `Load` has a status code outside the
2xx range, that request is the last one and `Load` returns no entries (nil) and
the error `fetching Backstage entries: received error from Backstage: ` followed
by the response's status string, whatever was collected from earlier pages. -/
theorem Load_fails_on_non_2xx (lib : Lib) (server : Server) (s : SourceBackstage)
    (fuel : Nat) (pre post : List Request) (r : Request) (resp : Response)
    (hreqs : (s.Load lib server fuel).requests = pre ++ r :: post)
    (hresp : server (pre ++ [r]) = .ok resp)
    (hcode : resp.StatusCode < 200 ∨ 300 ≤ resp.StatusCode) :
    post = [] ∧
    (s.Load lib server fuel).outcome
      = .returned none (some ("fetching Backstage entries: "
          ++ ("received error from Backstage: " ++ resp.Status))) := by
  unfold SourceBackstage.Load at hreqs ⊢
  cases hb : s.bearerToken lib with
  | error e => simp [hb] at hreqs
  | ok token =>
    rw [hb] at hreqs
    simp only [] at hreqs ⊢
    exact loop_not_ok lib server s token fuel s.Offset [] [] pre post r resp hreqs
      (by simp) hresp (by omega)

/-- C8, witness: the first page has one item, the second response is a 503;
`Load` returns nil and the error that ends with `503 Service Unavailable`. -/
theorem Load_fails_on_non_2xx_witness :
    (unsignedTestSource.Load testLib failingSecondServer 5).requests.length = 2 ∧
    (unsignedTestSource.Load testLib failingSecondServer 5).outcome
      = .returned none (some ("fetching Backstage entries: "
          ++ ("received error from Backstage: " ++ "503 Service Unavailable"))) :=
  ⟨by decide,
    (Load_fails_on_non_2xx testLib failingSecondServer unsignedTestSource 5
      (unsignedTestSource.Load testLib failingSecondServer 5).requests.dropLast []
      ⟨⟨"http", "127.0.0.1:7007", "/api/catalog/entities/by-query",
          [("offset", ["1"]), ("limit", ["10"]), ("filter", ["kind=Component"])]⟩,
        some "Bearer test-token"⟩
      ⟨503, "503 Service Unavailable", .page []⟩ (by decide) rfl (by decide)).2⟩

/-! ## C11: annotations on create and update requests -/

/-- C11 (the code at the failing input): with `A` and `B` configured and
nothing of them managed remotely, both `CreateType` requests carry the three
annotations with the configured sync id, and both `UpdateType` requests carry
no annotations at all. -/
theorem Run_update_requests_carry_no_annotations :
    (createdBodies (Run (okWorld s6Remote) plainDeps ⟨false⟩ abConfig).trace).map
        CreateTypeRequestBody.Annotations
      = [some [(AnnotationSyncID, "sync"), (AnnotationLastSyncAt, "2024-01-01T00:00:00Z"),
            (AnnotationVersion, "v1")],
         some [(AnnotationSyncID, "sync"), (AnnotationLastSyncAt, "2024-01-01T00:00:00Z"),
            (AnnotationVersion, "v1")]] ∧
    updateAnnotations (Run (okWorld s6Remote) plainDeps ⟨false⟩ abConfig).trace
      = [none, none] := by
  constructor <;> decide

/-! ## C13: the lookup after the create phase -/

theorem NotLookupError_none : NotLookupError none := fun _ h => Option.noConfusion h

theorem destroyLoop_notLookup (w : World) (l : List CatalogTypeV2) (hist : Trace) :
    NotLookupError (destroyLoop w l hist).2 := by
  induction l generalizing hist with
  | nil => exact NotLookupError_none
  | cons ct rest ih =>
    simp only [destroyLoop]
    cases h : w.destroyType hist ct.Id with
    | error e =>
      intro tn heq
      have := congrArg String.data (Option.some.inj heq)
      simp [lookupError, String.data_append] at this
    | ok u => exact ih _

theorem createLoop_notLookup (w : World) (d : Deps) (sid : String) (outs : List Output)
    (existing : List CatalogTypeV2) (hist : Trace) :
    NotLookupError (errOf (createLoop w d sid outs existing hist).2) := by
  induction outs generalizing existing hist with
  | nil => exact NotLookupError_none
  | cons o rest ih =>
    simp only [createLoop]
    split
    · exact ih _ _
    · cases h : w.createType hist (createBody d.Version (w.now hist) sid (MarshalType o)) with
      | error e =>
        intro tn heq
        have := congrArg String.data (Option.some.inj heq)
        simp [lookupError, String.data_append] at this
      | ok ct => exact ih _ _

theorem syncLoop_notLookup (w : World) (lookup : List (String × CatalogTypeV2))
    (outs : List Output) (hist : Trace) :
    NotLookupError (syncLoop w lookup outs hist).2 := by
  induction outs generalizing hist with
  | nil => exact NotLookupError_none
  | cons o rest ih =>
    simp only [syncLoop]
    cases hl : lookup.lookup o.TypeName with
    | none =>
      intro tn heq
      have := congrArg String.data (Option.some.inj heq)
      simp [lookupError, String.data_append] at this
    | some ct =>
      simp only []
      cases hu : w.updateType hist ct.Id (updateBody (MarshalType o)) with
      | error e =>
        intro tn heq
        have := congrArg String.data (Option.some.inj heq)
        simp [lookupError, String.data_append] at this
      | ok res =>
        simp only []
        cases hs : w.updateTypeSchema
            (hist ++ [⟨.UpdateType ct.Id (updateBody (MarshalType o)), .catalogType res⟩])
            ct.Id ⟨res.SchemaVersion, (MarshalType o).Attributes⟩ with
        | error e =>
          intro tn heq
          have := congrArg String.data (Option.some.inj heq)
          simp [lookupError, String.data_append] at this
        | ok u => exact ih _

theorem parseAll_notLookup (d : Deps) (ses : List SourceEntry) (acc : List Entry) :
    NotLookupError (errOf (parseAll d ses acc)) := by
  induction ses generalizing acc with
  | nil => exact NotLookupError_none
  | cons se rest ih =>
    simp only [parseAll]
    cases hp : d.parse se with
    | error e =>
      intro tn heq
      have := congrArg String.data (Option.some.inj heq)
      simp [lookupError, String.data_append] at this
    | ok es => exact ih _

theorem loadSources_notLookup (w : World) (d : Deps) (srcs : List Source)
    (acc : List Entry) (hist : Trace) :
    NotLookupError (errOf (loadSources w d srcs acc hist).2) := by
  induction srcs generalizing acc hist with
  | nil => exact NotLookupError_none
  | cons src rest ih =>
    simp only [loadSources]
    cases hl : w.load hist src with
    | error e =>
      intro tn heq
      have := congrArg String.data (Option.some.inj heq)
      simp [lookupError, String.data_append] at this
    | ok ses =>
      simp only []
      have hp := parseAll_notLookup d ses acc
      cases hpa : parseAll d ses acc with
      | error e =>
        rw [hpa] at hp
        exact hp
      | ok acc2 => exact ih _ _

theorem syncOutputs_notLookup (w : World) (d : Deps)
    (lookup : List (String × CatalogTypeV2)) (entries : List Entry) (outs : List Output)
    (idx : Nat) (hist : Trace) :
    NotLookupError (syncOutputs w d lookup entries outs idx hist).2 := by
  induction outs generalizing idx hist with
  | nil => exact NotLookupError_none
  | cons o rest ih =>
    simp only [syncOutputs]
    cases hc : d.collect o entries with
    | error e =>
      intro tn heq
      have := congrArg String.data (Option.some.inj heq)
      simp [lookupError, outputErr, String.data_append] at this
    | ok es =>
      simp only []
      cases hm : d.marshalEntries o es with
      | error e =>
        intro tn heq
        have := congrArg String.data (Option.some.inj heq)
        simp [lookupError, outputErr, String.data_append] at this
      | ok ms =>
        simp only []
        cases hr : w.reconcileEntries hist (lookup.lookup o.TypeName) ms with
        | error e =>
          intro tn heq
          have := congrArg String.data (Option.some.inj heq)
          simp [lookupError, String.data_append] at this
        | ok u => exact ih _ _

theorem runPipelines_notLookup (w : World) (d : Deps)
    (lookup : List (String × CatalogTypeV2)) (ps : List Pipeline) (hist : Trace) :
    NotLookupError (runPipelines w d lookup ps hist).2 := by
  induction ps generalizing hist with
  | nil => exact NotLookupError_none
  | cons p rest ih =>
    simp only [runPipelines]
    have h1 := loadSources_notLookup w d p.Sources [] hist
    rcases hl : loadSources w d p.Sources [] hist with ⟨t1, r1⟩
    rw [hl] at h1
    cases r1 with
    | error e => exact h1
    | ok entries =>
      simp only []
      have h2 := syncOutputs_notLookup w d lookup entries p.Outputs 0 (hist ++ t1)
      rcases hs : syncOutputs w d lookup entries p.Outputs 0 (hist ++ t1) with ⟨t2, r2⟩
      rw [hs] at h2
      cases r2 with
      | some e => exact h2
      | none => exact ih _

theorem prunePhase_notLookup (w : World) (opt : SyncOptions) (cfg : Config)
    (ex : List CatalogTypeV2) (hist : Trace) :
    NotLookupError (prunePhase w opt cfg ex hist).2 := by
  unfold prunePhase
  split
  · exact destroyLoop_notLookup _ _ _
  · exact NotLookupError_none

theorem afterPrune_notLookup (w : World) (d : Deps) (cfg : Config)
    (ex : List CatalogTypeV2) (hist : Trace)
    (hfound : ∀ ex2, (createLoop w d cfg.SyncID cfg.Outputs ex hist).2 = .ok ex2 →
      ∃ lk, buildLookup ex2 cfg.Outputs [] = .ok lk) :
    NotLookupError (afterPrune w d cfg ex hist).2 := by
  unfold afterPrune
  have hC := createLoop_notLookup w d cfg.SyncID cfg.Outputs ex hist
  rcases hc : createLoop w d cfg.SyncID cfg.Outputs ex hist with ⟨tC, rC⟩
  rw [hc] at hC hfound
  cases rC with
  | error e => exact hC
  | ok ex2 =>
    obtain ⟨lk, hlk⟩ := hfound ex2 rfl
    simp only [hlk]
    have hS := syncLoop_notLookup w lk cfg.Outputs (hist ++ tC)
    rcases hs : syncLoop w lk cfg.Outputs (hist ++ tC) with ⟨tS, rS⟩
    rw [hs] at hS
    cases rS with
    | some e => exact hS
    | none => exact runPipelines_notLookup _ _ _ _ _

theorem Run_lookup_built (w : World) (d : Deps) (opt : SyncOptions) (cfg : Config)
    (hecho : EchoesTypeName (Run w d opt cfg).trace) (remote ex2 : List CatalogTypeV2)
    (hlist : w.listTypes [] = .ok remote)
    (hp : (prunePhase w opt cfg (existingManaged cfg.SyncID remote)
      [⟨.ListTypes, .catalogTypes remote⟩]).2 = none)
    (hc : (createLoop w d cfg.SyncID cfg.Outputs (existingManaged cfg.SyncID remote)
      (⟨.ListTypes, .catalogTypes remote⟩ ::
        (prunePhase w opt cfg (existingManaged cfg.SyncID remote)
          [⟨.ListTypes, .catalogTypes remote⟩]).1)).2 = .ok ex2) :
    ∃ lk, buildLookup ex2 cfg.Outputs [] = .ok lk ∧
      ∀ o ∈ cfg.Outputs, ∃ ct, lk.lookup o.TypeName = some ct ∧ ct.TypeName = o.TypeName := by
  obtain ⟨rest, ht, -, hnone, -⟩ := Run_trace_eq w d opt cfg remote hlist
  obtain ⟨hrest, -⟩ := hnone hp
  obtain ⟨tS, tL, hA, -, -, -, -⟩ := afterPrune_phases w d cfg
    (existingManaged cfg.SyncID remote) (⟨.ListTypes, .catalogTypes remote⟩ ::
      (prunePhase w opt cfg (existingManaged cfg.SyncID remote)
        [⟨.ListTypes, .catalogTypes remote⟩]).1)
  have hsub : ∀ e ∈ (createLoop w d cfg.SyncID cfg.Outputs
      (existingManaged cfg.SyncID remote) (⟨.ListTypes, .catalogTypes remote⟩ ::
        (prunePhase w opt cfg (existingManaged cfg.SyncID remote)
          [⟨.ListTypes, .catalogTypes remote⟩]).1)).1,
      e ∈ (Run w d opt cfg).trace := by
    intro e he
    rw [ht, hrest, hA]
    simp [he]
  have hstop := createLoop_stops w d cfg.SyncID cfg.Outputs
    (existingManaged cfg.SyncID remote) (⟨.ListTypes, .catalogTypes remote⟩ ::
      (prunePhase w opt cfg (existingManaged cfg.SyncID remote)
        [⟨.ListTypes, .catalogTypes remote⟩]).1)
  rw [hc] at hstop
  obtain ⟨ex3, hok, -, hall, -⟩ := createLoop_spec w d cfg.SyncID cfg.Outputs
    (existingManaged cfg.SyncID remote) (⟨.ListTypes, .catalogTypes remote⟩ ::
      (prunePhase w opt cfg (existingManaged cfg.SyncID remote)
        [⟨.ListTypes, .catalogTypes remote⟩]).1)
    (StopsAtFailure_noFail hstop) (fun e he => hecho e (hsub e he))
  rw [hc] at hok
  simp only [Except.ok.injEq] at hok
  subst hok
  obtain ⟨lk, hb⟩ := buildLookup_ok ex2 cfg.Outputs [] hall
  refine ⟨lk, hb, ?_⟩
  intro o ho
  have hmem : o.TypeName ∈ cfg.Outputs.map Output.TypeName := List.mem_map.2 ⟨o, ho, rfl⟩
  have hlook := buildLookup_lookup ex2 cfg.Outputs [] lk hb o.TypeName
  rw [if_pos hmem] at hlook
  obtain ⟨c0, hc0, hc0n⟩ := List.mem_map.1 (hall o ho)
  cases hf : ex2.find? (fun ct => o.TypeName == ct.TypeName) with
  | none =>
    have := List.find?_eq_none.1 hf c0 hc0
    simp [hc0n] at this
  | some ct =>
    have h1 : o.TypeName = ct.TypeName := by simpa using List.find?_some hf
    exact ⟨ct, by rw [hlook, hf], h1.symm⟩

/-- C13: when every successful `CreateType` reply carries the requested type
name, `Run` never returns the error `could not find catalog type for model
..., this is a bug in the importer`; and when the prune and create phases
have gone through, the lookup is built and maps the type name of every
configured output to a catalog type with that type name. -/
theorem Run_lookup_finds_every_output (w : World) (d : Deps) (opt : SyncOptions)
    (cfg : Config) (hecho : EchoesTypeName (Run w d opt cfg).trace) :
    (∀ tn, (Run w d opt cfg).err ≠ some (lookupError tn)) ∧
    ∀ remote ex2, w.listTypes [] = .ok remote →
      (prunePhase w opt cfg (existingManaged cfg.SyncID remote)
        [⟨.ListTypes, .catalogTypes remote⟩]).2 = none →
      (createLoop w d cfg.SyncID cfg.Outputs (existingManaged cfg.SyncID remote)
        (⟨.ListTypes, .catalogTypes remote⟩ ::
          (prunePhase w opt cfg (existingManaged cfg.SyncID remote)
            [⟨.ListTypes, .catalogTypes remote⟩]).1)).2 = .ok ex2 →
      ∃ lk, buildLookup ex2 cfg.Outputs [] = .ok lk ∧
        ∀ o ∈ cfg.Outputs, ∃ ct, lk.lookup o.TypeName = some ct ∧
          ct.TypeName = o.TypeName := by
  refine ⟨?_, fun remote ex2 hlist hp hc =>
    Run_lookup_built w d opt cfg hecho remote ex2 hlist hp hc⟩
  cases hlist : w.listTypes [] with
  | error e =>
    intro tn heq
    simp only [Run, hlist] at heq
    have := congrArg String.data (Option.some.inj heq)
    simp [lookupError, String.data_append] at this
  | ok remote =>
    obtain ⟨rest, -, -, hnone, hsome⟩ := Run_trace_eq w d opt cfg remote hlist
    have hP := prunePhase_notLookup w opt cfg (existingManaged cfg.SyncID remote)
      [⟨.ListTypes, .catalogTypes remote⟩]
    cases hp : (prunePhase w opt cfg (existingManaged cfg.SyncID remote)
        [⟨.ListTypes, .catalogTypes remote⟩]).2 with
    | some e =>
      rw [(hsome e hp).2, ← hp]
      exact hP
    | none =>
      rw [(hnone hp).2]
      apply afterPrune_notLookup
      intro ex2 hc
      obtain ⟨lk, hb, -⟩ := Run_lookup_built w d opt cfg hecho remote ex2 hlist hp hc
      exact ⟨lk, hb⟩

/-- C13, witness: with `A` and `B` configured on a server that returns what was
asked for, `Run` ends without error, so in particular without the lookup error. -/
theorem Run_lookup_finds_every_output_witness :
    (Run (okWorld s6Remote) plainDeps ⟨false⟩ abConfig).err = none ∧
    ∀ tn, (Run (okWorld s6Remote) plainDeps ⟨false⟩ abConfig).err ≠ some (lookupError tn) :=
  ⟨by decide,
    (Run_lookup_finds_every_output (okWorld s6Remote) plainDeps ⟨false⟩ abConfig
      (by unfold EchoesTypeName; decide)).1⟩

/-! ## C12: the offset of each request -/

theorem loop_pages (lib : Lib) (server : Server) (s : SourceBackstage) (token : String)
    (u : ParsedURL) (hurl : lib.parseURL s.Endpoint = .ok u) (fuel : Nat) (offset : Int)
    (sent : List Request) (entries : List SourceEntry) :
    ∃ (pages : List (List String)) (more : List Request),
      (s.loop lib server token fuel offset sent entries).requests = sent ++ more ∧
      (∀ p ∈ pages, p ≠ []) ∧ pages.length ≤ more.length ∧ more.length ≤ pages.length + 1 ∧
      (∀ k page, pages[k]? = some page →
        ∃ status, server (sent ++ more.take (k + 1)) = .ok ⟨200, status, .page page⟩) ∧
      (∀ k r, more[k]? = some r →
        r = requestAt s token u (offsetAfter offset (pages.take k))) := by
  induction fuel generalizing offset sent entries with
  | zero => exact ⟨[], [], by simp [SourceBackstage.loop], by simp, by simp, by simp,
      by simp, by simp⟩
  | succ fuel ih =>
    rw [SourceBackstage.loop]
    simp only [hurl]
    have hstop : ∃ (pages : List (List String)) (more : List Request),
        sent ++ [requestAt s token u offset] = sent ++ more ∧
        (∀ p ∈ pages, p ≠ []) ∧ pages.length ≤ more.length ∧
        more.length ≤ pages.length + 1 ∧
        (∀ k page, pages[k]? = some page →
          ∃ status, server (sent ++ more.take (k + 1)) = .ok ⟨200, status, .page page⟩) ∧
        (∀ k r, more[k]? = some r →
          r = requestAt s token u (offsetAfter offset (pages.take k))) := by
      refine ⟨[], [requestAt s token u offset], rfl, by simp, by simp, by simp, by simp, ?_⟩
      intro k r hk
      cases k with
      | zero =>
        simp only [List.getElem?_cons_zero, Option.some.injEq] at hk
        simp [← hk, offsetAfter]
      | succ k => simp at hk
    cases hnr : lib.newRequest { u with Query := s.query offset u.Query } with
    | error e => exact ⟨[], [], by simp, by simp, by simp, by simp, by simp, by simp⟩
    | ok x =>
      simp only []
      cases hsrv : server (sent ++ [⟨{ u with Query := s.query offset u.Query },
          authorization token⟩]) with
      | error e => exact hstop
      | ok resp =>
        simp only []
        by_cases h200 : (resp.StatusCode != 200) = true
        · simp only [h200, if_true]
          exact hstop
        · simp only [h200]
          simp only [Bool.false_eq_true, if_false]
          have hcode : resp.StatusCode = 200 := by simpa using h200
          cases hbody : resp.Body with
          | malformed e => exact hstop
          | page page =>
            simp only []
            by_cases hempty : (page.length == 0) = true
            · simp only [hempty, if_true]
              exact hstop
            · simp only [hempty]
              simp only [Bool.false_eq_true, if_false]
              obtain ⟨pages, more, hm, hne, hl1, hl2, hresp, hreq⟩ :=
                ih (wrapInt64 (offset + page.length))
                  (sent ++ [⟨{ u with Query := s.query offset u.Query },
                    authorization token⟩])
                  (entries ++ page.map (fun content => ⟨s.OriginString, content⟩))
              refine ⟨page :: pages, requestAt s token u offset :: more, ?_, ?_, ?_, ?_, ?_, ?_⟩
              · rw [hm]
                simp [requestAt]
              · intro p hp
                rcases List.mem_cons.1 hp with rfl | hp
                · intro hnil
                  simp [hnil] at hempty
                · exact hne p hp
              · simpa using hl1
              · simpa using hl2
              · intro k pg hk
                cases k with
                | zero =>
                  simp only [List.getElem?_cons_zero, Option.some.injEq] at hk
                  subst hk
                  refine ⟨resp.Status, ?_⟩
                  simp only [List.take_succ_cons, List.take_zero, requestAt]
                  rw [hsrv]
                  rcases resp with ⟨c, st, b⟩
                  simp only at hcode hbody
                  rw [hcode, hbody]
                | succ k =>
                  simp only [List.getElem?_cons_succ] at hk
                  obtain ⟨status, hs⟩ := hresp k pg hk
                  refine ⟨status, ?_⟩
                  rw [← hs]
                  simp [requestAt]
              · intro k r hk
                cases k with
                | zero =>
                  simp only [List.getElem?_cons_zero, Option.some.injEq] at hk
                  simp [← hk, offsetAfter]
                | succ k =>
                  simp only [List.getElem?_cons_succ] at hk
                  rw [hreq k r hk]
                  simp [offsetAfter]

theorem wrapInt64_eq (x : Int) (hlo : -2 ^ 63 ≤ x) (hhi : x < 2 ^ 63) : wrapInt64 x = x := by
  unfold wrapInt64
  rw [Int.emod_eq_of_lt (by omega) (by omega)]
  omega

theorem offsetAfter_eq (offset : Int) (pages : List (List String))
    (hlo : -2 ^ 63 ≤ offset) (hhi : offset + entriesIn pages < 2 ^ 63) :
    offsetAfter offset pages = offset + entriesIn pages := by
  induction pages generalizing offset with
  | nil => simp [offsetAfter, entriesIn]
  | cons p ps ih =>
    have hsum : (entriesIn (p :: ps) : Int) = p.length + entriesIn ps := by
      simp [entriesIn]
    rw [hsum] at hhi ⊢
    have hw : wrapInt64 (offset + p.length) = offset + p.length :=
      wrapInt64_eq _ (by omega) (by omega)
    have := ih (offset + p.length) (by omega) (by omega)
    simp only [offsetAfter, List.foldl_cons] at this ⊢
    rw [hw, this]
    omega

theorem entriesIn_take_succ (pages : List (List String)) (k : Nat) (page : List String)
    (hk : pages[k]? = some page) :
    entriesIn (pages.take (k + 1)) = entriesIn (pages.take k) + page.length := by
  rw [List.take_succ, hk]
  simp [entriesIn]

theorem entriesIn_take_le (pages : List (List String)) (k : Nat) :
    entriesIn (pages.take k) ≤ entriesIn pages := by
  induction pages generalizing k with
  | nil => simp
  | cons p ps ih =>
    cases k with
    | zero => simp [entriesIn]
    | succ k =>
      have := ih k
      simp only [entriesIn, List.take_succ_cons, List.map_cons, List.sum_cons] at this ⊢
      omega

theorem entriesIn_take_lt (pages : List (List String)) (hne : ∀ p ∈ pages, p ≠ [])
    (j k : Nat) (hjk : j < k) (hk : k ≤ pages.length) :
    entriesIn (pages.take j) < entriesIn (pages.take k) := by
  induction k with
  | zero => omega
  | succ k ih =>
    have hlt : k < pages.length := by omega
    have hget : pages[k]? = some pages[k] := List.getElem?_eq_getElem hlt
    have hpos : 0 < (pages[k]).length :=
      List.length_pos.2 (hne _ (List.getElem_mem hlt))
    rw [entriesIn_take_succ pages k _ hget]
    by_cases hj : j = k
    · subst hj
      omega
    · have := ih (by omega) (by omega)
      omega

theorem offsetAfter_take_succ (offset : Int) (pages : List (List String)) (k : Nat)
    (page : List String) (hk : pages[k]? = some page) :
    offsetAfter offset (pages.take (k + 1))
      = wrapInt64 (offsetAfter offset (pages.take k) + page.length) := by
  rw [List.take_succ, hk]
  simp [offsetAfter, List.foldl_append]

/-- C12 (as amended): in one `Load` call that got its bearer and parsed its
endpoint, let `pages` be the non-empty pages received, page `k` being the reply
to request `k`. Request `k` is built at the configured `Offset` advanced by the
pages before it, each step being `s.Offset += len(page)` in Go `int`
arithmetic. As long as the configured `Offset` plus the entries received stays
inside the `int` range, that offset is the configured `Offset` plus the number
of entries of the pages before it, and the offsets are strictly increasing. -/
theorem Load_offsets_advance (lib : Lib) (server : Server) (s : SourceBackstage) (fuel : Nat)
    (token : String) (u : ParsedURL) (hbearer : s.bearerToken lib = .ok token)
    (hurl : lib.parseURL s.Endpoint = .ok u) :
    ∃ pages : List (List String),
      (∀ p ∈ pages, p ≠ []) ∧
      pages.length ≤ (s.Load lib server fuel).requests.length ∧
      (s.Load lib server fuel).requests.length ≤ pages.length + 1 ∧
      (∀ k page, pages[k]? = some page →
        ∃ status, server ((s.Load lib server fuel).requests.take (k + 1))
          = .ok ⟨200, status, .page page⟩) ∧
      (∀ k r, (s.Load lib server fuel).requests[k]? = some r →
        r = requestAt s token u (offsetAfter s.Offset (pages.take k))) ∧
      (∀ k page, pages[k]? = some page →
        offsetAfter s.Offset (pages.take (k + 1))
          = wrapInt64 (offsetAfter s.Offset (pages.take k) + page.length)) ∧
      (-2 ^ 63 ≤ s.Offset → s.Offset + entriesIn pages < 2 ^ 63 →
        (∀ k, offsetAfter s.Offset (pages.take k) = s.Offset + entriesIn (pages.take k)) ∧
        (∀ k page, pages[k]? = some page →
          offsetAfter s.Offset (pages.take (k + 1))
            = offsetAfter s.Offset (pages.take k) + page.length) ∧
        (∀ j k, j < k → k ≤ pages.length →
          offsetAfter s.Offset (pages.take j) < offsetAfter s.Offset (pages.take k))) := by
  obtain ⟨pages, more, hm, hne, hl1, hl2, hresp, hreq⟩ :=
    loop_pages lib server s token u hurl fuel s.Offset [] []
  have hreqs : (s.Load lib server fuel).requests = more := by
    simp only [SourceBackstage.Load, hbearer]
    simpa using hm
  rw [hreqs]
  refine ⟨pages, hne, hl1, hl2, ?_, hreq, ?_, ?_⟩
  · intro k page hk
    simpa using hresp k page hk
  · intro k page hk
    exact offsetAfter_take_succ _ _ _ _ hk
  · intro hlo hhi
    have hsum : ∀ k, offsetAfter s.Offset (pages.take k)
        = s.Offset + entriesIn (pages.take k) := by
      intro k
      have := entriesIn_take_le pages k
      exact offsetAfter_eq _ _ hlo (by omega)
    refine ⟨hsum, ?_, ?_⟩
    · intro k page hk
      rw [hsum, hsum, entriesIn_take_succ pages k page hk]
      push_cast
      omega
    · intro j k hjk hk
      rw [hsum, hsum]
      have := entriesIn_take_lt pages hne j k hjk hk
      omega

/-- C12, witness: over the pages `[A,B]`, `[C]`, `[]` the requests carry no
offset, then offset 2, then offset 3. -/
theorem Load_offsets_advance_witness :
    (unsignedTestSource.Load testLib (scripted [["A", "B"], ["C"], []]) 5).requests.map
        (fun r => r.URL.Query.lookup "offset") = [none, some ["2"], some ["3"]] ∧
    ∃ pages : List (List String),
      (∀ p ∈ pages, p ≠ []) ∧
      pages.length
        ≤ (unsignedTestSource.Load testLib (scripted [["A", "B"], ["C"], []]) 5).requests.length ∧
      (unsignedTestSource.Load testLib (scripted [["A", "B"], ["C"], []]) 5).requests.length
        ≤ pages.length + 1 ∧
      (∀ k page, pages[k]? = some page →
        ∃ status, scripted [["A", "B"], ["C"], []]
            ((unsignedTestSource.Load testLib (scripted [["A", "B"], ["C"], []])
              5).requests.take (k + 1))
          = .ok ⟨200, status, .page page⟩) ∧
      (∀ k r,
        (unsignedTestSource.Load testLib (scripted [["A", "B"], ["C"], []]) 5).requests[k]?
            = some r →
        r = requestAt unsignedTestSource "test-token"
          ⟨"http", "127.0.0.1:7007", "/api/catalog/entities/by-query", []⟩
          (offsetAfter unsignedTestSource.Offset (pages.take k))) ∧
      (∀ k page, pages[k]? = some page →
        offsetAfter unsignedTestSource.Offset (pages.take (k + 1))
          = wrapInt64 (offsetAfter unsignedTestSource.Offset (pages.take k) + page.length)) ∧
      (-2 ^ 63 ≤ unsignedTestSource.Offset →
        unsignedTestSource.Offset + entriesIn pages < 2 ^ 63 →
        (∀ k, offsetAfter unsignedTestSource.Offset (pages.take k)
          = unsignedTestSource.Offset + entriesIn (pages.take k)) ∧
        (∀ k page, pages[k]? = some page →
          offsetAfter unsignedTestSource.Offset (pages.take (k + 1))
            = offsetAfter unsignedTestSource.Offset (pages.take k) + page.length) ∧
        (∀ j k, j < k → k ≤ pages.length →
          offsetAfter unsignedTestSource.Offset (pages.take j)
            < offsetAfter unsignedTestSource.Offset (pages.take k))) :=
  ⟨by decide,
    Load_offsets_advance testLib (scripted [["A", "B"], ["C"], []]) unsignedTestSource 5
      "test-token" ⟨"http", "127.0.0.1:7007", "/api/catalog/entities/by-query", []⟩ rfl rfl⟩

/-- C12, counterexample: the configured offset is the largest `int` and the
server answers with the two test components. The first request carries that
offset; the offset then wraps around to a negative number, far below the first
one, and the second request carries no `offset` parameter at all. -/
theorem Load_offset_wraps_around :
    (overflowSource.Load testLib testServer 2).requests
      = [requestAt overflowSource "test-token"
            ⟨"http", "127.0.0.1:7007", "/api/catalog/entities/by-query", []⟩
            9223372036854775807,
         requestAt overflowSource "test-token"
            ⟨"http", "127.0.0.1:7007", "/api/catalog/entities/by-query", []⟩
            (-9223372036854775807)] ∧
    (overflowSource.Load testLib testServer 2).requests.map
        (fun r => r.URL.Query.lookup "offset") = [some ["9223372036854775807"], none] ∧
    wrapInt64 (overflowSource.Offset + testPage.length) = -9223372036854775807 ∧
    ¬ (overflowSource.Offset < wrapInt64 (overflowSource.Offset + testPage.length)) := by
  refine ⟨?_, ?_, ?_, ?_⟩ <;> decide

end CatalogImporter
